import Mathlib

/-!
# Virtual-memory simulator (`vmsim.c`) and its translator (`mmu.c`)

A shallow embedding of the two C files.  Machine integers are natural
numbers reduced modulo `2^32` (`vmsim_addr_t`, `pt_entry_t`, `unsigned int`)
or `2^64` (`size_t`, `uint64_t`) wherever the C arithmetic can wrap; the
end pointer of a raw access, `(intptr_t)ptr + size`, is reduced modulo
`2^64`.  The arena is a function from real addresses to bytes; a 32-bit word
is stored little-endian in four consecutive bytes.  The array `reverse_page_map` is a function from indices to values:
as in C, an index is not checked against the allocated length.  A function
that can fail one of its `assert`s returns `Option`: `none` is the aborted
run.  `swap_out`, whose loop has no exit, takes fuel, and `none` there also
covers the run that is still looping when the fuel is spent.  A local that
is read before it is assigned takes its value from `Uninit`.

`mmu.c` defines `mmu_translate` with the simulated address as its only
parameter.  `vmsim_map` of `vmsim.c` calls a translator of two parameters, the
address and the kind of access, which is not among the sources: it is
`mmu_translate_rw` below, modelled from the spec.
-/

namespace Vmsim

/-! ## Constants and macro functions -/

/-- The macro `KB(n)`, which is `(n * 1024)`. -/
def KB (n : Nat) : Nat := n * 1024

/-- The macro `MB(n)`, which is `(KB(n) * 1024)`. -/
def MB (n : Nat) : Nat := KB n * 1024

/-- The macro `DEFAULT_REAL_MEMORY_SIZE`. -/
def DEFAULT_REAL_MEMORY_SIZE : Nat := MB 5

/-- The macro `PAGESIZE`. -/
def PAGESIZE : Nat := KB 4

/-- The macro `PT_AREA_SIZE`. -/
def PT_AREA_SIZE : Nat := MB 4 + KB 4

/-- The macro `OFFSET_MASK`. -/
def OFFSET_MASK : Nat := PAGESIZE - 1

/-- The macro `PAGE_NUMBER_MASK`, the complement of `OFFSET_MASK` as it acts
on a 32-bit operand. -/
def PAGE_NUMBER_MASK : Nat := (2 ^ 32 - 1) ^^^ OFFSET_MASK

/-- The number of values of a 32-bit unsigned integer. -/
def W32 : Nat := 2 ^ 32

/-- The number of values of a 64-bit unsigned integer. -/
def W64 : Nat := 2 ^ 64

/-- The macro `GET_UPPER_INDEX`. -/
def GET_UPPER_INDEX (addr : Nat) : Nat := (addr >>> 22) &&& 0x3ff

/-- The macro `GET_LOWER_INDEX`. -/
def GET_LOWER_INDEX (addr : Nat) : Nat := (addr >>> 12) &&& 0x3ff

/-- The macro `GET_OFFSET`. -/
def GET_OFFSET (addr : Nat) : Nat := addr &&& OFFSET_MASK

/-- The macro `GET_PAGE_ADDR`. -/
def GET_PAGE_ADDR (addr : Nat) : Nat := addr &&& PAGE_NUMBER_MASK

/-- The macro `IS_ALIGNED`. -/
def IS_ALIGNED (addr : Nat) : Bool := (addr &&& OFFSET_MASK) == 0

/-- Modelled from the spec: the header `vmsim.h` is not among the sources.  It
supplies the three status masks of a page-table entry (resident, referenced,
dirty), which the embedding takes as parameters. -/
structure PteBits where
  PTE_RESIDENT_BIT : Nat
  PTE_REFERENCED_BIT : Nat
  PTE_DIRTY_BIT : Nat
deriving DecidableEq, Repr

/-- The status masks lie in the low 12 bits of an entry, the resident mask is
not empty and shares no bit with the other two. -/
def PteBits.lowBits (B : PteBits) : Prop :=
  0 < B.PTE_RESIDENT_BIT ∧ B.PTE_RESIDENT_BIT < 4096 ∧
  B.PTE_REFERENCED_BIT < 4096 ∧ B.PTE_DIRTY_BIT < 4096 ∧
  B.PTE_RESIDENT_BIT &&& B.PTE_REFERENCED_BIT = 0 ∧
  B.PTE_RESIDENT_BIT &&& B.PTE_DIRTY_BIT = 0

instance (B : PteBits) : Decidable B.lowBits := by
  unfold PteBits.lowBits; infer_instance

/-- The masks with the resident flag in bit 0, the referenced flag in bit 1
and the dirty flag in bit 2. -/
def bits124 : PteBits := ⟨1, 2, 4⟩

/-- The macro `IS_RESIDENT`, as a C truth value. -/
def IS_RESIDENT (B : PteBits) (pte : Nat) : Bool := (pte &&& B.PTE_RESIDENT_BIT) != 0

/-- The macro `IS_REFERENCED`, as a C truth value. -/
def IS_REFERENCED (B : PteBits) (pte : Nat) : Bool := (pte &&& B.PTE_REFERENCED_BIT) != 0

/-- The macro `IS_DIRTY`, as a C truth value. -/
def IS_DIRTY (B : PteBits) (pte : Nat) : Bool := (pte &&& B.PTE_DIRTY_BIT) != 0

/-- The macro `SET_RESIDENT`: the new value of the entry. -/
def SET_RESIDENT (B : PteBits) (pte : Nat) : Nat := pte ||| B.PTE_RESIDENT_BIT

/-- The macro `CLEAR_REFERENCED`: the new value of the 32-bit entry. -/
def CLEAR_REFERENCED (B : PteBits) (pte : Nat) : Nat :=
  pte &&& ((2 ^ 32 - 1) ^^^ (B.PTE_REFERENCED_BIT % W32))

/-! ## The machine state -/

/-- One call of the backing store. -/
inductive BsCall where
  | read (real_addr block : Nat)
  | write (real_addr block : Nat)
deriving DecidableEq, Repr

/-- The globals of `vmsim.c` and `mmu.c`, the arena and the backing store. -/
structure Machine where
  /-- The bytes of the arena, by real address. -/
  mem : Nat → Nat
  /-- The pointer `real_base`; `0` is `NULL`. -/
  real_base : Nat
  real_limit : Nat
  real_size : Nat
  pt_free_addr : Nat
  normal_base_addr : Nat
  real_free_addr : Nat
  upper_pt : Nat
  sim_free_addr : Nat
  normal_real_size : Nat
  normal_real_pages : Nat
  /-- The array `reverse_page_map`, by index. -/
  reverse_page_map : Nat → Nat
  clock_hand : Nat
  bs_free_block : Nat
  /-- The static `upper_pt_addr` of `mmu.c`. -/
  upper_pt_addr : Nat
  /-- The contents of the backing store: block number, then byte offset. -/
  bs_blocks : Nat → Nat → Nat
  /-- The calls made to the backing store, oldest first. -/
  bs_log : List BsCall

/-- The globals as their initialisers leave them, before any call. -/
def initial_globals : Machine where
  mem := fun _ => 0
  real_base := 0
  real_limit := 0
  real_size := DEFAULT_REAL_MEMORY_SIZE
  pt_free_addr := PAGESIZE
  normal_base_addr := PT_AREA_SIZE
  real_free_addr := PT_AREA_SIZE
  upper_pt := 0
  sim_free_addr := 0
  normal_real_size := 0
  normal_real_pages := 0
  reverse_page_map := fun _ => 0
  clock_hand := 0
  bs_free_block := 1
  upper_pt_addr := 0
  bs_blocks := fun _ _ => 0
  bs_log := []

/-! ## Raw access to the arena -/

/-- The bytes `[real_addr, real_addr + size)` of the arena. -/
def readBytes (mem : Nat → Nat) (real_addr size : Nat) : List Nat :=
  (List.range size).map (fun i => mem (real_addr + i))

/-- The arena after `size` bytes of `buffer` are copied to `real_addr`. -/
def writeBytes (mem : Nat → Nat) (buffer : List Nat) (real_addr size : Nat) : Nat → Nat :=
  fun x => if real_addr ≤ x ∧ x < real_addr + size
    then buffer.getD (x - real_addr) 0 else mem x

/-- The four bytes of a 32-bit word, least significant first. -/
def bytes32 (v : Nat) : List Nat :=
  [v % 256, v / 256 % 256, v / 65536 % 256, v / 16777216 % 256]

/-- The 32-bit word held in four bytes, least significant first. -/
def word32 (mem : Nat → Nat) (real_addr : Nat) : Nat :=
  mem real_addr + 256 * mem (real_addr + 1) + 65536 * mem (real_addr + 2)
    + 16777216 * mem (real_addr + 3)

/-- The function `vmsim_read_real`: the bytes copied to the buffer, or `none`
when the bounds assertion fails.  The end pointer `(intptr_t)ptr + size` is a
64-bit sum. -/
def vmsim_read_real (m : Machine) (real_addr size : Nat) : Option (List Nat) :=
  let ptr := m.real_base + real_addr
  let end_ptr := (ptr + size) % W64
  if end_ptr ≤ m.real_limit then some (readBytes m.mem real_addr size) else none

/-- The function `vmsim_write_real`: the machine after the copy, or `none`
when the bounds assertion fails. -/
def vmsim_write_real (m : Machine) (buffer : List Nat) (real_addr size : Nat) :
    Option Machine :=
  let ptr := m.real_base + real_addr
  let end_ptr := (ptr + size) % W64
  if end_ptr ≤ m.real_limit
  then some { m with mem := writeBytes m.mem buffer real_addr size } else none

/-- A call `vmsim_read_real(&w, real_addr, sizeof(w))` for a 32-bit `w`. -/
def read32 (m : Machine) (real_addr : Nat) : Option Nat :=
  (vmsim_read_real m real_addr 4).map (fun _ => word32 m.mem real_addr)

/-- A call `vmsim_write_real(&w, real_addr, sizeof(w))` for a 32-bit `w`. -/
def write32 (m : Machine) (w real_addr : Nat) : Option Machine :=
  vmsim_write_real m (bytes32 w) real_addr 4

/-! ## The backing store -/

/-- Modelled from the spec: `bs.c` is not among the sources.  `bs_write`
persists the page-sized region at `real_addr` as block `block`; it always
succeeds. -/
def bs_write (m : Machine) (real_addr block : Nat) : Machine :=
  { m with
    bs_blocks := fun b => if b = block then (fun i => m.mem (real_addr + i)) else m.bs_blocks b
    bs_log := m.bs_log ++ [BsCall.write real_addr block] }

/-- Modelled from the spec: `bs.c` is not among the sources.  `bs_read`
restores the page-sized region at `real_addr` from block `block`; it always
succeeds. -/
def bs_read (m : Machine) (real_addr block : Nat) : Machine :=
  { m with
    mem := fun x => if real_addr ≤ x ∧ x < real_addr + PAGESIZE
      then m.bs_blocks block (x - real_addr) else m.mem x
    bs_log := m.bs_log ++ [BsCall.read real_addr block] }

/-- Modelled from the spec: `bs.c` is not among the sources.  `bs_init`
prepares the store and touches nothing of the simulator. -/
def bs_init (m : Machine) : Machine := m

/-! ## Page-table blocks and data frames -/

/-- The function `clear_page`.  Its call of `vmsim_write_real` passes
`PAGESIZE` as the real address and `sizeof(char)` as the size; the parameter
`real_page_addr` is not used. -/
def clear_page (m : Machine) (_real_page_addr : Nat) : Option Machine :=
  let zero_buffer := List.replicate PAGESIZE 0
  vmsim_write_real m zero_buffer PAGESIZE 1

/-- The function `allocate_pt`. -/
def allocate_pt (m : Machine) : Option (Nat × Machine) :=
  let new_pt_addr := m.pt_free_addr
  let m1 := { m with pt_free_addr := (m.pt_free_addr + PAGESIZE) % W32 }
  if !IS_ALIGNED new_pt_addr then none
  else if ¬ m1.pt_free_addr ≤ PT_AREA_SIZE then none
  else (clear_page m1 new_pt_addr).map (fun m2 => (new_pt_addr, m2))

/-- The values that locals read before their first assignment happen to
hold: `phys_addr` of `mmu_translate`, `real_page_addr` of `swap_out`. -/
structure Uninit where
  phys_addr : Nat
  real_page_addr : Nat
deriving DecidableEq, Repr

/-- One pass through the body of the `while (true)` loop of `swap_out`: the
machine and the local `real_page_addr` after the pass.  The pass has no
`return` and no `break`.  The last statement of the `else` branch stores to
the local `pte`, which the next pass reads afresh; nothing is written back to
the arena there.  `none` is a failed bounds assertion or the division by
`normal_real_pages` when that is zero. -/
def swap_out_body (B : PteBits) (m : Machine) (real_page_addr : Nat) :
    Option (Machine × Nat) :=
  let pte_addr := m.reverse_page_map m.clock_hand
  match read32 m pte_addr with
  | none => none
  | some pte =>
    if IS_REFERENCED B pte then
      let pte := CLEAR_REFERENCED B pte
      match write32 m pte pte_addr with
      | none => none
      | some m1 =>
        if m1.normal_real_pages = 0 then none
        else
          let m2 := { m1 with clock_hand := (m1.clock_hand + 1) % W32 % m1.normal_real_pages }
          some ({ m2 with clock_hand := (m2.clock_hand + 1) % W32 }, real_page_addr)
    else
      let m1 := bs_write m real_page_addr m.bs_free_block
      let real_page_addr := GET_PAGE_ADDR pte
      let m2 := { m1 with bs_free_block := (m1.bs_free_block + 1) % W32 }
      some ({ m2 with clock_hand := (m2.clock_hand + 1) % W32 }, real_page_addr)

/-- The function `swap_out`, with fuel for its loop: the loop body is run
again and again, and since it never leaves the loop no result is ever
produced. -/
def swap_out (B : PteBits) : Nat → Machine → Nat → Option (Nat × Machine)
  | 0, _, _ => none
  | fuel + 1, m, real_page_addr =>
    match swap_out_body B m real_page_addr with
    | none => none
    | some (m1, real_page_addr1) => swap_out B fuel m1 real_page_addr1

/-- The function `allocate_real_page`. -/
def allocate_real_page (B : PteBits) (U : Uninit) (fuel : Nat) (m : Machine) :
    Option (Nat × Machine) :=
  let r : Option (Nat × Machine) :=
    if m.real_free_addr < m.real_size then
      let new_real_addr := m.real_free_addr
      let m1 := { m with real_free_addr := (m.real_free_addr + PAGESIZE) % W32 }
      if !IS_ALIGNED new_real_addr then none else some (new_real_addr, m1)
    else
      swap_out B fuel m U.real_page_addr
  match r with
  | none => none
  | some (new_real_addr, m1) => (clear_page m1 new_real_addr).map (fun m2 => (new_real_addr, m2))

/-! ## Initialisation -/

/-- The function `mmu_init` of `mmu.c`. -/
def mmu_init (m : Machine) (new_upper_pt_addr : Nat) : Machine :=
  { m with upper_pt_addr := new_upper_pt_addr }

/-- What the process environment hands to `vmsim_init`. -/
structure Env where
  /-- The variable `VMSIM_REAL_MEM_SIZE`: `none` when unset, `some none` when
  `strtoul` sets `errno`, `some (some v)` when it parses to `v`. -/
  real_size_envvar : Option (Option Nat)
  /-- The pointer returned by `mmap`. -/
  mmap_result : Nat
  /-- The contents of the block returned by `malloc`, which are not
  initialised. -/
  malloc_contents : Nat → Nat

/-- The function `vmsim_init`.  `malloc` and `mmap` are taken to succeed; the
fresh anonymous mapping is zero-filled and lies inside the address space, so
the sum `real_base + real_size` is its end and is not reduced. -/
def vmsim_init (E : Env) (m : Machine) : Option Machine :=
  if m.real_base = 0 then
    let sized : Option Machine :=
      match E.real_size_envvar with
      | none => some m
      | some none => none
      | some (some v) => some { m with real_size := v % W64 }
    match sized with
    | none => none
    | some m1 =>
      let normal_real_size := (m1.real_size + W64 - PT_AREA_SIZE) % W64 % W32
      let m2 := { m1 with
        normal_real_size := normal_real_size
        normal_real_pages := normal_real_size / PAGESIZE
        reverse_page_map := E.malloc_contents }
      let m3 := { m2 with real_base := E.mmap_result, mem := fun _ => 0 }
      if m3.real_base = 0 then none
      else
        let m4 := { m3 with real_limit := m3.real_base + m3.real_size }
        match allocate_pt m4 with
        | none => none
        | some (pt, m5) =>
          let m6 := { m5 with upper_pt := pt }
          let m7 := { m6 with sim_free_addr := PAGESIZE }
          some (bs_init (mmu_init m7 m7.upper_pt))
  else some m

/-! ## The fault handler -/

/-- The function `swap_in`. -/
def swap_in (m : Machine) (real_page_addr pte : Nat) : Machine :=
  let block_number := pte >>> 1
  bs_read m real_page_addr block_number

/-- The second half of `vmsim_map_fault`, from the comment "Grab the lower
table's entry" to the end, run on the machine and the upper entry that the
first half leaves. -/
def vmsim_map_fault_lower (B : PteBits) (U : Uninit) (fuel : Nat) (m1 : Machine)
    (upper_pte sim_addr : Nat) : Option Machine :=
  let lower_pt := GET_PAGE_ADDR upper_pte
  let lower_index := GET_LOWER_INDEX sim_addr
  let lower_pte_addr := (lower_pt + lower_index * 4) % W32
  match read32 m1 lower_pte_addr with
  | none => none
  | some lower_pte =>
    if !IS_RESIDENT B lower_pte then
      match allocate_real_page B U fuel m1 with
      | none => none
      | some (real_page_addr, m2) =>
        let m3 := if lower_pte ≠ 0 then swap_in m2 real_page_addr lower_pte else m2
        let lower_pte := real_page_addr
        let lower_pte := SET_RESIDENT B lower_pte
        match write32 m3 lower_pte lower_pte_addr with
        | none => none
        | some m4 =>
          let real_page_number := (real_page_addr + W32 - m4.normal_base_addr) % W32 / PAGESIZE
          some { m4 with reverse_page_map :=
            fun k => if k = real_page_number then lower_pte_addr else m4.reverse_page_map k }
    else some m1

/-- The function `vmsim_map_fault`: its first half, up to the creation of a
missing lower table, followed by `vmsim_map_fault_lower`. -/
def vmsim_map_fault (B : PteBits) (U : Uninit) (fuel : Nat) (m : Machine) (sim_addr : Nat) :
    Option Machine :=
  if m.upper_pt = 0 then none
  else
    let upper_index := GET_UPPER_INDEX sim_addr
    let upper_pte_addr := (m.upper_pt + upper_index * 4) % W32
    match read32 m upper_pte_addr with
    | none => none
    | some upper_pte =>
      let r : Option (Nat × Machine) :=
        if upper_pte = 0 then
          match allocate_pt m with
          | none => none
          | some (upper_pte, m1) =>
            if upper_pte = 0 then none
            else (write32 m1 upper_pte upper_pte_addr).map (fun m2 => (upper_pte, m2))
        else some (upper_pte, m)
      match r with
      | none => none
      | some (upper_pte, m1) => vmsim_map_fault_lower B U fuel m1 upper_pte sim_addr

/-! ## The translator of `mmu.c` -/

/-- The function `mmu_translate` of `mmu.c`, with fuel for its calls of
itself and for the fault handler.  The page-table addresses are computed from
`upper_pt_addr`, and `+` binds tighter than `<<`.  The first condition is the
assignment `buffer = 0`, which stores zero and is false.  `phys_addr` is
assigned only in the last branch. -/
def mmu_translate (B : PteBits) (U : Uninit) :
    Nat → Machine → Nat → Option (Nat × Machine)
  | 0, _, _ => none
  | fuel + 1, m, sim_addr =>
    let phys_addr := U.phys_addr
    let offset := m.upper_pt_addr &&& 0xfff
    let upperindex := (m.upper_pt_addr >>> 22) &&& 0x3ff
    let lowerindex := (m.upper_pt_addr >>> 12) &&& 0x3ff
    let pointer_index := (((m.upper_pt_addr + upperindex) % W32) <<< 2) % W32
    match read32 m pointer_index with
    | none => none
    | some _ =>
      let buffer := 0
      let r1 : Option Machine :=
        if buffer ≠ 0 then
          match vmsim_map_fault B U fuel m sim_addr with
          | none => none
          | some m1 => (mmu_translate B U fuel m1 sim_addr).map Prod.snd
        else some m
      match r1 with
      | none => none
      | some m1 =>
        let point_in := (((m1.upper_pt_addr + lowerindex) % W32) <<< 2) % W32
        match read32 m1 point_in with
        | none => none
        | some lowbuffer =>
          let r2 : Option Machine :=
            if buffer ≠ 0 ∧ lowbuffer = 0 then
              match vmsim_map_fault B U fuel m1 sim_addr with
              | none => none
              | some m2 => (mmu_translate B U fuel m2 sim_addr).map Prod.snd
            else some m1
          match r2 with
          | none => none
          | some m2 =>
            let phys_addr :=
              if buffer ≠ 0 ∧ lowbuffer ≠ 0 then (lowbuffer + offset) % W32 else phys_addr
            some (phys_addr, m2)

/-! ## The translator that `vmsim.c` calls -/

/-- Modelled from the spec: the translator that `vmsim.c` calls,
`mmu_translate(sim_addr, write_operation)`, is not among the sources (the
`mmu_translate` of `mmu.c` takes one argument).  It follows the spec's
translation unit: decode the address into upper index, lower index and offset;
read the upper entry and, if it is unmapped, invoke the fault handler and
start again; read the lower entry in the table the upper entry names and, if
it is not resident, invoke the fault handler and start again; on success set
the referenced flag, and the dirty flag on a write, in the lower entry, store
it back, and return the frame address plus the offset.  The fuel bounds the
restarts and is handed to the fault handler. -/
def mmu_translate_rw (B : PteBits) (U : Uninit) :
    Nat → Machine → Nat → Bool → Option (Nat × Machine)
  | 0, _, _, _ => none
  | fuel + 1, m, sim_addr, write_operation =>
    let upper_index := GET_UPPER_INDEX sim_addr
    let lower_index := GET_LOWER_INDEX sim_addr
    let offset := GET_OFFSET sim_addr
    let upper_pte_addr := (m.upper_pt_addr + upper_index * 4) % W32
    match read32 m upper_pte_addr with
    | none => none
    | some upper_pte =>
      if upper_pte = 0 then
        match vmsim_map_fault B U fuel m sim_addr with
        | none => none
        | some m1 => mmu_translate_rw B U fuel m1 sim_addr write_operation
      else
        let lower_pte_addr := (GET_PAGE_ADDR upper_pte + lower_index * 4) % W32
        match read32 m lower_pte_addr with
        | none => none
        | some lower_pte =>
          if !IS_RESIDENT B lower_pte then
            match vmsim_map_fault B U fuel m sim_addr with
            | none => none
            | some m1 => mmu_translate_rw B U fuel m1 sim_addr write_operation
          else
            let referenced := lower_pte ||| B.PTE_REFERENCED_BIT
            let updated := if write_operation then referenced ||| B.PTE_DIRTY_BIT else referenced
            match write32 m updated lower_pte_addr with
            | none => none
            | some m1 => some ((GET_PAGE_ADDR lower_pte + offset) % W32, m1)

/-! ## The client interface -/

/-- The function `vmsim_map`.  Its call `mmu_translate(sim_addr,
write_operation)` is the call of the two-parameter translator. -/
def vmsim_map (B : PteBits) (U : Uninit) (E : Env) (fuel : Nat) (m : Machine)
    (sim_addr : Nat) (write_operation : Bool) : Option (Nat × Machine) :=
  match vmsim_init E m with
  | none => none
  | some m1 =>
    if m1.real_base = 0 then none
    else mmu_translate_rw B U fuel m1 sim_addr write_operation

/-- The function `vmsim_read`: the bytes copied to the buffer and the machine
afterwards. -/
def vmsim_read (B : PteBits) (U : Uninit) (E : Env) (fuel : Nat) (m : Machine)
    (addr size : Nat) : Option (List Nat × Machine) :=
  match vmsim_map B U E fuel m addr false with
  | none => none
  | some (real_addr, m1) => (vmsim_read_real m1 real_addr size).map (fun bs => (bs, m1))

/-- The function `vmsim_write`. -/
def vmsim_write (B : PteBits) (U : Uninit) (E : Env) (fuel : Nat) (m : Machine)
    (buffer : List Nat) (addr size : Nat) : Option Machine :=
  match vmsim_map B U E fuel m addr true with
  | none => none
  | some (real_addr, m1) => vmsim_write_real m1 buffer real_addr size

/-- The function `vmsim_alloc`: the address returned and the machine
afterwards. -/
def vmsim_alloc (E : Env) (m : Machine) (size : Nat) : Option (Nat × Machine) :=
  match vmsim_init E m with
  | none => none
  | some m1 =>
    let addr := m1.sim_free_addr
    some (addr, { m1 with sim_free_addr := (m1.sim_free_addr + size) % W32 })

/-- The function `vmsim_free`. -/
def vmsim_free (m : Machine) (_ptr : Nat) : Machine := m

/-! ## Sequences of calls and the page-table walk -/

/-- A process environment: the size variable is unset, so the arena has the
default 5 MB. -/
def boot_env : Env := ⟨none, 65536, fun _ => 0⟩

/-- The machine after the first `vmsim_init()` of a process. -/
def booted : Option Machine := vmsim_init boot_env initial_globals

/-- The machine after `vmsim_init()` and then `vmsim_map_fault(4096)`. -/
def booted_mapped : Option Machine :=
  booted.bind (fun m => vmsim_map_fault bits124 ⟨0, 0⟩ 0 m 4096)

/-- The machine after `vmsim_init()` and then `vmsim_map_fault(4096)`, both
of which return. -/
def mapped_machine : Machine := booted_mapped.getD initial_globals

/-- The machine `mapped_machine` with the lower entry of simulated address
4096, at real address 8196, rewritten to name block 7 of the backing store. -/
def swapped_machine : Machine :=
  { mapped_machine with mem := writeBytes mapped_machine.mem (bytes32 (7 <<< 1)) 8196 4 }

/-- The machine after `vmsim_init()`, `vmsim_map_fault(4096)` and
`vmsim_map_fault(8192)`, all of which return. -/
def two_pages_machine : Machine :=
  (vmsim_map_fault bits124 ⟨0, 0⟩ 0 mapped_machine 8192).getD initial_globals

/-- Successive calls of `vmsim_init`, one per environment of the list. -/
def vmsim_init_calls : List Env → Machine → Option Machine
  | [], m => some m
  | E :: Es, m => (vmsim_init E m).bind (vmsim_init_calls Es)

/-- Successive calls of `vmsim_alloc` with the sizes of the list: the
addresses returned, in order, and the machine afterwards. -/
def vmsim_alloc_calls (E : Env) : Machine → List Nat → Option (List Nat × Machine)
  | m, [] => some ([], m)
  | m, s :: ss =>
    match vmsim_alloc E m s with
    | none => none
    | some (a, m1) =>
      match vmsim_alloc_calls E m1 ss with
      | none => none
      | some (as, m2) => some (a :: as, m2)

/-- The ranges `[a, a + s)` and `[a', a' + s')` share an address. -/
def ranges_overlap (a s a' s' : Nat) : Prop :=
  ∃ x, a ≤ x ∧ x < a + s ∧ a' ≤ x ∧ x < a' + s'

/-- The real address of the upper entry that `vmsim_map_fault` reads for
`sim_addr`. -/
def upper_pte_addr (m : Machine) (sim_addr : Nat) : Nat :=
  (m.upper_pt + GET_UPPER_INDEX sim_addr * 4) % W32

/-- The real address of the lower entry that `vmsim_map_fault` reads for
`sim_addr` when the upper entry holds `upper_pte`. -/
def lower_pte_addr (upper_pte sim_addr : Nat) : Nat :=
  (GET_PAGE_ADDR upper_pte + GET_LOWER_INDEX sim_addr * 4) % W32

/-- The lower-entry slot of `sim_addr`: its real address, when the upper
entry of `sim_addr` is readable and not zero. -/
def lower_slot (m : Machine) (sim_addr : Nat) : Option Nat :=
  match read32 m (upper_pte_addr m sim_addr) with
  | none => none
  | some upper_pte => if upper_pte = 0 then none else some (lower_pte_addr upper_pte sim_addr)

/-- The lower entry of `sim_addr`, when its slot exists and is readable. -/
def lower_pte (m : Machine) (sim_addr : Nat) : Option Nat :=
  (lower_slot m sim_addr).bind (read32 m)

/-- The page of `sim_addr` is unmapped: there is no lower table for it yet,
or its lower entry is all zero. -/
def unmapped (m : Machine) (sim_addr : Nat) : Prop :=
  read32 m (upper_pte_addr m sim_addr) = some 0 ∨ lower_pte m sim_addr = some 0

/-- The states reached from the initial globals by one `vmsim_init` that
returns and then any number of `vmsim_map_fault` calls that return. -/
inductive Reach (B : PteBits) (E : Env) : Machine → Prop
  | init {m : Machine} : vmsim_init E initial_globals = some m → Reach B E m
  | fault {m m1 : Machine} (U : Uninit) (fuel sim_addr : Nat) :
      Reach B E m → vmsim_map_fault B U fuel m sim_addr = some m1 → Reach B E m1

/-- The second state is reached from the first by `vmsim_map_fault` calls
that return. -/
inductive Faults (B : PteBits) : Machine → Machine → Prop
  | refl (m : Machine) : Faults B m m
  | fault {m m1 m2 : Machine} (U : Uninit) (fuel sim_addr : Nat) :
      vmsim_map_fault B U fuel m sim_addr = some m1 → Faults B m1 m2 → Faults B m m2

/-- The address of data frame number `k`, as a 32-bit value. -/
def frame_addr (k : Nat) : Nat := (PT_AREA_SIZE + PAGESIZE * k) % W32

/-- The machine that a first `vmsim_init` leaves when the arena has `rs` bytes. -/
def init_result (E : Env) (m : Machine) (rs : Nat) : Machine :=
  { m with
    mem := writeBytes (fun _ => 0) (List.replicate PAGESIZE 0) PAGESIZE 1
    real_base := E.mmap_result
    real_limit := E.mmap_result + rs
    real_size := rs
    pt_free_addr := (m.pt_free_addr + PAGESIZE) % W32
    upper_pt := m.pt_free_addr
    sim_free_addr := PAGESIZE
    normal_real_size := (rs + W64 - PT_AREA_SIZE) % W64 % W32
    normal_real_pages := (rs + W64 - PT_AREA_SIZE) % W64 % W32 / PAGESIZE
    reverse_page_map := E.malloc_contents
    upper_pt_addr := m.pt_free_addr }


/-! ## The two effects of a fault, and the invariant of the page tables -/

/-- The page of `sim_addr` is resident: its lower entry is readable and has
the resident flag. -/
def resident (B : PteBits) (m : Machine) (sim_addr : Nat) : Prop :=
  ∃ l, lower_pte m sim_addr = some l ∧ IS_RESIDENT B l = true

/-- The machine after a fault has created the lower table of `sim_addr`: the
block at `pt_free_addr` is taken and its address stored in the upper entry. -/
def new_table (m : Machine) (sim_addr : Nat) : Machine :=
  { m with
    pt_free_addr := (m.pt_free_addr + PAGESIZE) % W32
    mem := writeBytes m.mem (bytes32 m.pt_free_addr) (upper_pte_addr m sim_addr) 4 }

/-- The machine after a fault has bound the frame at `real_free_addr` to the
lower entry at real address `p`. -/
def bind_frame (B : PteBits) (m : Machine) (p : Nat) : Machine :=
  { m with
    real_free_addr := (m.real_free_addr + PAGESIZE) % W32
    mem := writeBytes m.mem (bytes32 (SET_RESIDENT B m.real_free_addr)) p 4
    reverse_page_map := fun k =>
      if k = (m.real_free_addr + W32 - m.normal_base_addr) % W32 / PAGESIZE then p
      else m.reverse_page_map k }

/-- What the second half of a fault does with the lower entry at `p` when
that entry is zero or resident. -/
def map_page (B : PteBits) (m : Machine) (p : Nat) : Option Machine :=
  if (m.real_base + p + 4) % W64 ≤ m.real_limit then
    if IS_RESIDENT B (word32 m.mem p) then some m
    else if m.real_free_addr < m.real_size then some (bind_frame B m p) else none
  else none

/-- The invariant of the states reached by `vmsim_init` and faults: `n`
frames have been bound, frame `k` to the lower entry at `slot k`. -/
structure Inv (B : PteBits) (m : Machine) (n : Nat) (slot : Nat → Nat) : Prop where
  upt : m.upper_pt = PAGESIZE
  nb : m.normal_base_addr = PT_AREA_SIZE
  pt_lo : 2 * PAGESIZE ≤ m.pt_free_addr
  pt_hi : m.pt_free_addr ≤ PT_AREA_SIZE
  pt_al : m.pt_free_addr % PAGESIZE = 0
  rfree : m.real_free_addr = frame_addr n
  lim : m.real_limit = m.real_base + m.real_size
  size : (m.real_base + PAGESIZE + 1) % W64 ≤ m.real_limit
  zone : 0 < n → PT_AREA_SIZE < m.real_size
  byte0 : m.mem PAGESIZE = 0
  upper : ∀ i, i < 1024 → word32 m.mem (PAGESIZE + i * 4) = 0 ∨
    (2 * PAGESIZE ≤ word32 m.mem (PAGESIZE + i * 4) ∧
      word32 m.mem (PAGESIZE + i * 4) < m.pt_free_addr ∧
      word32 m.mem (PAGESIZE + i * 4) % PAGESIZE = 0)
  upper_inj : ∀ i i1, i < 1024 → i1 < 1024 → word32 m.mem (PAGESIZE + i * 4) ≠ 0 →
    word32 m.mem (PAGESIZE + i * 4) = word32 m.mem (PAGESIZE + i1 * 4) → i = i1
  slot_lo : ∀ k, k < n → 2 * PAGESIZE ≤ slot k
  slot_hi : ∀ k, k < n → slot k + 4 ≤ m.pt_free_addr
  slot_al : ∀ k, k < n → slot k % 4 = 0
  slot_inj : ∀ k k1, k < n → k1 < n → slot k = slot k1 → k = k1
  slot_val : ∀ k, k < n → word32 m.mem (slot k) = SET_RESIDENT B (frame_addr k)
  rmap : ∀ k, k < n → m.reverse_page_map k = slot k
  lower : ∀ p, 2 * PAGESIZE ≤ p → p + 4 ≤ PT_AREA_SIZE → p % 4 = 0 →
    word32 m.mem p = 0 ∨ ∃ k, k < n ∧ p = slot k

/-! ## Runs of the allocators, and machines to evaluate the evictor on -/

/-- Successive calls of `allocate_pt`: the addresses returned, in order, and
the machine afterwards. -/
def allocate_pt_calls : Nat → Machine → Option (List Nat × Machine)
  | 0, m => some ([], m)
  | n + 1, m =>
    match allocate_pt m with
    | none => none
    | some (a, m1) =>
      match allocate_pt_calls n m1 with
      | none => none
      | some (as, m2) => some (a :: as, m2)

/-- Successive calls of `allocate_real_page`: the addresses returned, in
order, and the machine afterwards. -/
def allocate_real_page_calls (B : PteBits) (U : Uninit) (fuel : Nat) :
    Nat → Machine → Option (List Nat × Machine)
  | 0, m => some ([], m)
  | n + 1, m =>
    match allocate_real_page B U fuel m with
    | none => none
    | some (a, m1) =>
      match allocate_real_page_calls B U fuel n m1 with
      | none => none
      | some (as, m2) => some (a :: as, m2)

/-- The initial globals with an arena of `rs` bytes mapped at address 65536:
the state in which `vmsim_init` makes its call of `allocate_pt`. -/
def arena_globals (rs : Nat) : Machine :=
  { initial_globals with real_base := 65536, real_limit := 65536 + rs, real_size := rs }

/-- A process environment that sets the arena size to the page-table zone
plus one page plus 100 bytes, which is not a multiple of the page size. -/
def odd_env : Env := ⟨some (some (PT_AREA_SIZE + PAGESIZE + 100)), 65536, fun _ => 0⟩

/-- A process environment that sets the arena size to the page-table zone
plus one page: the data pool has exactly one frame. -/
def one_frame_env : Env := ⟨some (some (PT_AREA_SIZE + PAGESIZE)), 65536, fun _ => 0⟩

/-- The machine of a process with a one-frame pool after its first client
call, `vmsim_write({0x11}, 4096, 1)`, which returns. -/
def one_page_written : Machine :=
  (vmsim_write bits124 ⟨0, 0⟩ one_frame_env 2 initial_globals [0x11] 4096 1).getD
    initial_globals

/-- The machine `mapped_machine` with the referenced flag (mask 2) set in the
lower entry of simulated address 4096, at real address 8196. -/
def referenced_machine : Machine :=
  { mapped_machine with mem := writeBytes mapped_machine.mem (bytes32 (4198401 ||| 2)) 8196 4 }

/-- The machine `referenced_machine` with the clock hand on frame 253 and
every cell of the reverse map naming the entry at real address 8196. -/
def late_hand_machine : Machine :=
  { referenced_machine with clock_hand := 253, reverse_page_map := fun _ => 8196 }

/-- The freshly initialised machine after the raw write
`vmsim_write_real({7}, PT_AREA_SIZE, 1)`, which returns. -/
def scribbled_machine : Machine :=
  (vmsim_write_real (init_result boot_env initial_globals (MB 5)) [7] PT_AREA_SIZE 1).getD
    initial_globals

/-- The function `mmu_translate` of `mmu.c` with the fault handler it calls
taken as a parameter: the same statements, with `fault fuel m sim_addr` where
the source has `vmsim_map_fault(sim_addr)`. -/
def mmu_translate_with (fault : Nat → Machine → Nat → Option Machine) (U : Uninit) :
    Nat → Machine → Nat → Option (Nat × Machine)
  | 0, _, _ => none
  | fuel + 1, m, sim_addr =>
    let phys_addr := U.phys_addr
    let offset := m.upper_pt_addr &&& 0xfff
    let upperindex := (m.upper_pt_addr >>> 22) &&& 0x3ff
    let lowerindex := (m.upper_pt_addr >>> 12) &&& 0x3ff
    let pointer_index := (((m.upper_pt_addr + upperindex) % W32) <<< 2) % W32
    match read32 m pointer_index with
    | none => none
    | some _ =>
      let buffer := 0
      let r1 : Option Machine :=
        if buffer ≠ 0 then
          match fault fuel m sim_addr with
          | none => none
          | some m1 => (mmu_translate_with fault U fuel m1 sim_addr).map Prod.snd
        else some m
      match r1 with
      | none => none
      | some m1 =>
        let point_in := (((m1.upper_pt_addr + lowerindex) % W32) <<< 2) % W32
        match read32 m1 point_in with
        | none => none
        | some lowbuffer =>
          let r2 : Option Machine :=
            if buffer ≠ 0 ∧ lowbuffer = 0 then
              match fault fuel m1 sim_addr with
              | none => none
              | some m2 => (mmu_translate_with fault U fuel m2 sim_addr).map Prod.snd
            else some m1
          match r2 with
          | none => none
          | some m2 =>
            let phys_addr :=
              if buffer ≠ 0 ∧ lowbuffer ≠ 0 then (lowbuffer + offset) % W32 else phys_addr
            some (phys_addr, m2)

/-- The first real address that `mmu_translate` reads. -/
def mmu_first_read (m : Machine) : Nat :=
  (((m.upper_pt_addr + ((m.upper_pt_addr >>> 22) &&& 0x3ff)) % W32) <<< 2) % W32

/-- The second real address that `mmu_translate` reads. -/
def mmu_second_read (m : Machine) : Nat :=
  (((m.upper_pt_addr + ((m.upper_pt_addr >>> 12) &&& 0x3ff)) % W32) <<< 2) % W32

/-! ## Arithmetic of the macros and of the arena -/

theorem PAGESIZE_eq : PAGESIZE = 4096 := rfl
theorem PT_AREA_SIZE_eq : PT_AREA_SIZE = 4198400 := rfl
theorem W32_eq : W32 = 4294967296 := rfl
theorem W64_eq : W64 = 18446744073709551616 := rfl
theorem OFFSET_MASK_eq : OFFSET_MASK = 4095 := rfl
theorem PAGE_NUMBER_MASK_eq : PAGE_NUMBER_MASK = 4294963200 := by decide

theorem and_offset_mask (x : Nat) : x &&& OFFSET_MASK = x % 4096 := by
  have h := Nat.and_pow_two_sub_one_eq_mod x 12
  simpa [OFFSET_MASK_eq] using h

theorem IS_ALIGNED_iff (x : Nat) : IS_ALIGNED x = true ↔ x % 4096 = 0 := by
  simp [IS_ALIGNED, and_offset_mask]

theorem and_page_number_mask (x : Nat) (h : x < 2 ^ 32) :
    x &&& PAGE_NUMBER_MASK = x / 4096 * 4096 := by
  apply Nat.eq_of_testBit_eq
  intro i
  have e1 : PAGE_NUMBER_MASK = (2 ^ 32 - 1) ^^^ (2 ^ 12 - 1) := rfl
  have e2 : x / 4096 * 4096 = (x >>> 12) <<< 12 := by
    rw [Nat.shiftLeft_eq, Nat.shiftRight_eq_div_pow]
  rw [e1, e2, Nat.testBit_and, Nat.testBit_xor, Nat.testBit_two_pow_sub_one,
    Nat.testBit_two_pow_sub_one, Nat.testBit_shiftLeft, Nat.testBit_shiftRight]
  by_cases h12 : 12 ≤ i
  · by_cases h32 : i < 32
    · have : ¬ i < 12 := by omega
      have e : 12 + (i - 12) = i := by omega
      simp [h12, h32, this, e]
    · have hx : x.testBit i = false :=
        Nat.testBit_lt_two_pow (Nat.lt_of_lt_of_le h (Nat.pow_le_pow_right (by decide) (by omega)))
      simp [hx]
      intro _
      have e : 12 + (i - 12) = i := by omega
      rw [e]; exact hx
  · have : i < 12 := by omega
    have : i < 32 := by omega
    simp [*]

theorem GET_PAGE_ADDR_aligned (x : Nat) (h : x < W32) (ha : x % 4096 = 0) :
    GET_PAGE_ADDR x = x := by
  unfold GET_PAGE_ADDR
  rw [and_page_number_mask x h]; omega

theorem or_flag_eq_add (F r : Nat) (ha : F % 4096 = 0) (hr : r < 4096) : F ||| r = F + r := by
  have h := Nat.mul_add_lt_is_or (i := 12) (b := r) (by simpa using hr) (F / 4096)
  have e : 2 ^ 12 * (F / 4096) = F := by
    have := Nat.div_add_mod F 4096
    omega
  rw [e] at h; exact h.symm

theorem and_low_of_aligned (F r : Nat) (ha : F % 4096 = 0) (hr : r < 4096) : F &&& r = 0 := by
  have h1 : r &&& 4095 = r := by
    have := Nat.and_pow_two_sub_one_of_lt_two_pow (n := 12) (x := r) (by simpa using hr)
    simpa using this
  have h2 : F &&& 4095 = 0 := by
    have := Nat.and_pow_two_sub_one_eq_mod F 12
    simp at this; omega
  calc F &&& r = F &&& (r &&& 4095) := by rw [h1]
    _ = (F &&& 4095) &&& r := by rw [Nat.and_comm r 4095, Nat.and_assoc]
    _ = 0 := by rw [h2]; simp

theorem index_lt (x : Nat) : x &&& 0x3ff < 1024 :=
  Nat.lt_of_le_of_lt Nat.and_le_right (by decide)

theorem GET_UPPER_INDEX_lt (a : Nat) : GET_UPPER_INDEX a < 1024 := index_lt _
theorem GET_LOWER_INDEX_lt (a : Nat) : GET_LOWER_INDEX a < 1024 := index_lt _

theorem word32_write_same (mem : Nat → Nat) (v p : Nat) (hv : v < W32) :
    word32 (writeBytes mem (bytes32 v) p 4) p = v := by
  have e1 : p + 1 - p = 1 := by omega
  have e2 : p + 2 - p = 2 := by omega
  have e3 : p + 3 - p = 3 := by omega
  simp [word32, writeBytes, bytes32, e1, e2, e3]
  rw [W32_eq] at hv
  omega

theorem word32_write_other (mem : Nat → Nat) (buf : List Nat) (p size q : Nat)
    (h : q + 4 ≤ p ∨ p + size ≤ q) :
    word32 (writeBytes mem buf p size) q = word32 mem q := by
  have a0 : ¬ (p ≤ q ∧ q < p + size) := by omega
  have a1 : ¬ (p ≤ q + 1 ∧ q + 1 < p + size) := by omega
  have a2 : ¬ (p ≤ q + 2 ∧ q + 2 < p + size) := by omega
  have a3 : ¬ (p ≤ q + 3 ∧ q + 3 < p + size) := by omega
  simp [word32, writeBytes, a0, a1, a2, a3]

/-! ## What the allocators and `vmsim_init` return -/

theorem clear_page_some (m m1 : Machine) (a : Nat) (h : clear_page m a = some m1) :
    (m.real_base + PAGESIZE + 1) % W64 ≤ m.real_limit ∧
    m1 = { m with mem := writeBytes m.mem (List.replicate PAGESIZE 0) PAGESIZE 1 } := by
  unfold clear_page vmsim_write_real at h
  by_cases hb : (m.real_base + PAGESIZE + 1) % W64 ≤ m.real_limit
  · simp only [hb, if_true, Option.some.injEq] at h
    exact ⟨hb, h.symm⟩
  · simp [hb] at h

theorem allocate_pt_some (m m1 : Machine) (a : Nat) (h : allocate_pt m = some (a, m1)) :
    a = m.pt_free_addr ∧ IS_ALIGNED a = true ∧ (a + PAGESIZE) % W32 ≤ PT_AREA_SIZE ∧
    (m.real_base + PAGESIZE + 1) % W64 ≤ m.real_limit ∧
    m1 = { m with pt_free_addr := (m.pt_free_addr + PAGESIZE) % W32
                  mem := writeBytes m.mem (List.replicate PAGESIZE 0) PAGESIZE 1 } := by
  unfold allocate_pt at h
  by_cases h1 : IS_ALIGNED m.pt_free_addr = true
  · by_cases h2 : (m.pt_free_addr + PAGESIZE) % W32 ≤ PT_AREA_SIZE
    · simp only [h1, h2, Bool.not_true, Bool.false_eq_true, if_false, not_true_eq_false] at h
      cases hc : clear_page { m with pt_free_addr := (m.pt_free_addr + PAGESIZE) % W32 }
        m.pt_free_addr with
      | none => simp [hc] at h
      | some m2 =>
        simp only [hc, Option.map_some', Option.some.injEq, Prod.mk.injEq] at h
        obtain ⟨rfl, rfl⟩ := h
        obtain ⟨hb, rfl⟩ := clear_page_some _ _ _ hc
        exact ⟨rfl, h1, h2, hb, rfl⟩
    · simp [h1, h2] at h
  · simp [h1] at h

theorem vmsim_init_sized (E : Env) (m m1 : Machine) (rs : Nat)
    (h : (if E.mmap_result = 0 then none
      else
        match allocate_pt
          { m with
            mem := fun _ => 0
            real_base := E.mmap_result
            real_limit := E.mmap_result + rs
            real_size := rs
            normal_real_size := (rs + W64 - PT_AREA_SIZE) % W64 % W32
            normal_real_pages := (rs + W64 - PT_AREA_SIZE) % W64 % W32 / PAGESIZE
            reverse_page_map := E.malloc_contents } with
        | none => none
        | some (pt, m5) =>
          some (bs_init (mmu_init { m5 with upper_pt := pt, sim_free_addr := PAGESIZE } pt)))
      = some m1) :
    E.mmap_result ≠ 0 ∧ IS_ALIGNED m.pt_free_addr = true ∧
    (m.pt_free_addr + PAGESIZE) % W32 ≤ PT_AREA_SIZE ∧
    (E.mmap_result + PAGESIZE + 1) % W64 ≤ E.mmap_result + rs ∧ m1 = init_result E m rs := by
  split at h
  · exact absurd h (by simp)
  · rename_i hm
    split at h
    · exact absurd h (by simp)
    · rename_i pt m5 hal
      simp only [Option.some.injEq] at h
      obtain ⟨rfl, h1, h2, h3, rfl⟩ := allocate_pt_some _ _ _ hal
      subst h
      exact ⟨hm, h1, h2, h3, rfl⟩

theorem vmsim_init_first (E : Env) (m m1 : Machine) (hb : m.real_base = 0)
    (h : vmsim_init E m = some m1) :
    E.mmap_result ≠ 0 ∧ IS_ALIGNED m.pt_free_addr = true ∧
    (m.pt_free_addr + PAGESIZE) % W32 ≤ PT_AREA_SIZE ∧
    ∃ rs, (E.mmap_result + PAGESIZE + 1) % W64 ≤ E.mmap_result + rs ∧
      (E.real_size_envvar = none → rs = m.real_size) ∧ m1 = init_result E m rs := by
  unfold vmsim_init at h
  simp only [hb, if_true] at h
  cases hE : E.real_size_envvar with
  | none =>
    simp only [hE] at h
    obtain ⟨a, b, c, d, e⟩ := vmsim_init_sized E m m1 m.real_size (by simpa [hb] using h)
    exact ⟨a, b, c, m.real_size, d, fun _ => rfl, e⟩
  | some o =>
    cases o with
    | none => simp [hE] at h
    | some v =>
      simp only [hE] at h
      obtain ⟨a, b, c, d, e⟩ := vmsim_init_sized E m m1 (v % W64) (by simpa [hb] using h)
      exact ⟨a, b, c, v % W64, d, fun hn => by simp at hn, e⟩

theorem vmsim_init_real_base (E : Env) (m m1 : Machine) (h : vmsim_init E m = some m1) :
    m1.real_base ≠ 0 := by
  by_cases hb : m.real_base = 0
  · obtain ⟨hm, _, _, rs, _, _, rfl⟩ := vmsim_init_first E m m1 hb h
    exact hm
  · unfold vmsim_init at h
    simp only [hb, if_false, Option.some.injEq] at h
    subst h; exact hb

theorem vmsim_init_again (E : Env) (m : Machine) (h : m.real_base ≠ 0) :
    vmsim_init E m = some m := by
  unfold vmsim_init; simp [h]

/-! ## Status flags of an entry that holds a frame address -/

theorem frame_or_lt (F r : Nat) (hF : F < W32) (hr : r < 4096) : F ||| r < W32 :=
  Nat.or_lt_two_pow (n := 32) hF (Nat.lt_trans hr (by decide))

theorem IS_RESIDENT_frame (B : PteBits) (hB : B.lowBits) (F : Nat) (ha : F % 4096 = 0) :
    IS_RESIDENT B (SET_RESIDENT B F) = true := by
  obtain ⟨h0, h1, _, _, _, _⟩ := hB
  unfold IS_RESIDENT SET_RESIDENT
  rw [Nat.and_distrib_right, and_low_of_aligned F _ ha h1]
  simp only [Nat.and_self, Nat.zero_or, bne_iff_ne, ne_eq]
  omega

theorem IS_REFERENCED_frame (B : PteBits) (hB : B.lowBits) (F : Nat) (ha : F % 4096 = 0) :
    IS_REFERENCED B (SET_RESIDENT B F) = false := by
  obtain ⟨_, _, h2, _, h4, _⟩ := hB
  unfold IS_REFERENCED SET_RESIDENT
  rw [Nat.and_distrib_right, and_low_of_aligned F _ ha h2, h4]
  rfl

theorem IS_DIRTY_frame (B : PteBits) (hB : B.lowBits) (F : Nat) (ha : F % 4096 = 0) :
    IS_DIRTY B (SET_RESIDENT B F) = false := by
  obtain ⟨_, _, _, h3, _, h5⟩ := hB
  unfold IS_DIRTY SET_RESIDENT
  rw [Nat.and_distrib_right, and_low_of_aligned F _ ha h3, h5]
  rfl

theorem GET_PAGE_ADDR_frame (B : PteBits) (hB : B.lowBits) (F : Nat) (hF : F < W32)
    (ha : F % 4096 = 0) : GET_PAGE_ADDR (SET_RESIDENT B F) = F := by
  obtain ⟨_, h1, _, _, _, _⟩ := hB
  unfold GET_PAGE_ADDR SET_RESIDENT
  rw [and_page_number_mask _ (frame_or_lt F _ hF h1), or_flag_eq_add F _ ha h1]
  omega

theorem IS_RESIDENT_zero (B : PteBits) : IS_RESIDENT B 0 = false := by
  simp [IS_RESIDENT]

theorem SET_RESIDENT_ne_zero (B : PteBits) (hB : B.lowBits) (F : Nat) (ha : F % 4096 = 0) :
    SET_RESIDENT B F ≠ 0 := by
  intro h
  have := IS_RESIDENT_frame B hB F ha
  rw [h, IS_RESIDENT_zero] at this
  exact absurd this (by decide)

/-! ## Reading back what was written -/

theorem read32_some (m : Machine) (p v : Nat) (h : read32 m p = some v) :
    (m.real_base + p + 4) % W64 ≤ m.real_limit ∧ v = word32 m.mem p := by
  unfold read32 vmsim_read_real at h
  by_cases hb : (m.real_base + p + 4) % W64 ≤ m.real_limit
  · simp only [hb, if_true, Option.map_some', Option.some.injEq] at h
    exact ⟨hb, h.symm⟩
  · simp [hb] at h

theorem read32_eq (m : Machine) (p : Nat) (h : (m.real_base + p + 4) % W64 ≤ m.real_limit) :
    read32 m p = some (word32 m.mem p) := by
  unfold read32 vmsim_read_real
  simp [h]

theorem write32_eq (m : Machine) (v p : Nat) (h : (m.real_base + p + 4) % W64 ≤ m.real_limit) :
    write32 m v p = some { m with mem := writeBytes m.mem (bytes32 v) p 4 } := by
  unfold write32 vmsim_write_real
  simp [h]

theorem clear_page_eq (m : Machine) (a : Nat)
    (h : (m.real_base + PAGESIZE + 1) % W64 ≤ m.real_limit) :
    clear_page m a
      = some { m with mem := writeBytes m.mem (List.replicate PAGESIZE 0) PAGESIZE 1 } := by
  unfold clear_page vmsim_write_real
  simp [h]

/-- The bump path of `allocate_real_page`. -/
theorem allocate_real_page_bump (B : PteBits) (U : Uninit) (fuel : Nat) (m : Machine)
    (hfree : m.real_free_addr < m.real_size) (hal : IS_ALIGNED m.real_free_addr = true)
    (hsz : (m.real_base + PAGESIZE + 1) % W64 ≤ m.real_limit) :
    allocate_real_page B U fuel m = some (m.real_free_addr,
      { m with real_free_addr := (m.real_free_addr + PAGESIZE) % W32
               mem := writeBytes m.mem (List.replicate PAGESIZE 0) PAGESIZE 1 }) := by
  unfold allocate_real_page
  simp only [hfree, if_true, hal, Bool.not_true, Bool.false_eq_true, if_false]
  have h := clear_page_eq { m with real_free_addr := (m.real_free_addr + PAGESIZE) % W32 }
    m.real_free_addr hsz
  rw [h]
  rfl

/-! ## The evictor never returns; `clear_page` on a reached machine -/

theorem swap_out_none (B : PteBits) (fuel : Nat) :
    ∀ (m : Machine) (r : Nat), swap_out B fuel m r = none := by
  induction fuel with
  | zero => intro m r; rfl
  | succ fuel ih =>
    intro m r
    unfold swap_out
    cases h : swap_out_body B m r with
    | none => rfl
    | some q =>
      obtain ⟨m1, r1⟩ := q
      exact ih m1 r1

theorem writeBytes_zero_page (mem : Nat → Nat) (h : mem PAGESIZE = 0) :
    writeBytes mem (List.replicate PAGESIZE 0) PAGESIZE 1 = mem := by
  funext x
  unfold writeBytes
  by_cases hx : PAGESIZE ≤ x ∧ x < PAGESIZE + 1
  · have e : x = PAGESIZE := by omega
    subst e
    rw [if_pos hx, h, List.getD_eq_getElem?_getD, List.getElem?_getD_replicate_default_eq]
  · simp only [hx, if_false]

theorem clear_page_id (m : Machine) (a : Nat)
    (hs : (m.real_base + PAGESIZE + 1) % W64 ≤ m.real_limit)
    (h0 : m.mem PAGESIZE = 0) : clear_page m a = some m := by
  rw [clear_page_eq m a hs, writeBytes_zero_page m.mem h0]

/-- `allocate_real_page` on a machine whose byte at `PAGESIZE` is zero. -/
theorem allocate_real_page_eq (B : PteBits) (U : Uninit) (fuel : Nat) (m : Machine)
    (hs : (m.real_base + PAGESIZE + 1) % W64 ≤ m.real_limit) (h0 : m.mem PAGESIZE = 0)
    (hal : m.real_free_addr % 4096 = 0) :
    allocate_real_page B U fuel m =
      if m.real_free_addr < m.real_size then
        some (m.real_free_addr,
          { m with real_free_addr := (m.real_free_addr + PAGESIZE) % W32 })
      else none := by
  by_cases hfree : m.real_free_addr < m.real_size
  · rw [allocate_real_page_bump B U fuel m hfree ((IS_ALIGNED_iff _).mpr hal) hs,
      writeBytes_zero_page m.mem h0]
    simp [hfree]
  · unfold allocate_real_page
    simp only [hfree, if_false, swap_out_none]

/-- The second half of a fault at a lower entry that is zero or resident. -/
theorem vmsim_map_fault_lower_eq (B : PteBits) (U : Uninit) (fuel : Nat) (m : Machine)
    (u sim_addr : Nat) (hs : (m.real_base + PAGESIZE + 1) % W64 ≤ m.real_limit)
    (h0 : m.mem PAGESIZE = 0)
    (hal : m.real_free_addr % 4096 = 0)
    (hz : IS_RESIDENT B (word32 m.mem (lower_pte_addr u sim_addr)) = false →
      word32 m.mem (lower_pte_addr u sim_addr) = 0) :
    vmsim_map_fault_lower B U fuel m u sim_addr = map_page B m (lower_pte_addr u sim_addr) := by
  unfold vmsim_map_fault_lower map_page
  show (match read32 m (lower_pte_addr u sim_addr) with
    | none => none
    | some lower_pte => _) = _
  by_cases hb : (m.real_base + lower_pte_addr u sim_addr + 4) % W64 ≤ m.real_limit
  · rw [read32_eq m _ hb]
    simp only [hb, if_true]
    by_cases hr : IS_RESIDENT B (word32 m.mem (lower_pte_addr u sim_addr)) = true
    · simp [hr]
    · have hr1 : IS_RESIDENT B (word32 m.mem (lower_pte_addr u sim_addr)) = false := by
        simpa using hr
      have hz1 := hz hr1
      simp only [hr1, Bool.not_false, if_true, Bool.false_eq_true, if_false,
        allocate_real_page_eq B U fuel m hs h0 hal]
      by_cases hfree : m.real_free_addr < m.real_size
      · simp only [hfree, if_true, hz1, ne_eq, not_true_eq_false, if_false]
        rw [write32_eq _ _ _ (by exact hb)]
        rfl
      · simp only [hfree, if_false]
  · have : read32 m (lower_pte_addr u sim_addr) = none := by
      unfold read32 vmsim_read_real; simp [hb]
    rw [this]; simp [hb]

/-! ## Frame addresses and the count of lower entries -/

theorem frame_addr_lt (k : Nat) : frame_addr k < W32 := by
  unfold frame_addr; exact Nat.mod_lt _ (by decide)

theorem frame_addr_aligned (k : Nat) : frame_addr k % 4096 = 0 := by
  unfold frame_addr; rw [PT_AREA_SIZE_eq, PAGESIZE_eq, W32_eq]; omega

theorem frame_addr_succ (n : Nat) : (frame_addr n + PAGESIZE) % W32 = frame_addr (n + 1) := by
  unfold frame_addr; rw [PT_AREA_SIZE_eq, PAGESIZE_eq, W32_eq]; omega

theorem frame_addr_inj (k k1 : Nat) (hk : k < 1048576) (hk1 : k1 < 1048576)
    (h : frame_addr k = frame_addr k1) : k = k1 := by
  unfold frame_addr at h; rw [PT_AREA_SIZE_eq, PAGESIZE_eq, W32_eq] at h; omega

theorem frame_index (n : Nat) (hn : n < 1048576) :
    (frame_addr n + W32 - PT_AREA_SIZE) % W32 / PAGESIZE = n := by
  unfold frame_addr; rw [PT_AREA_SIZE_eq, PAGESIZE_eq, W32_eq]; omega

/-- There is room for at most 1023 * 1024 lower entries between the upper
table and the end of the page-table zone. -/
theorem slot_count (slot : Nat → Nat) (n : Nat)
    (hlo : ∀ k, k < n → 2 * PAGESIZE ≤ slot k)
    (hhi : ∀ k, k < n → slot k + 4 ≤ PT_AREA_SIZE)
    (hal : ∀ k, k < n → slot k % 4 = 0)
    (hinj : ∀ k k1, k < n → k1 < n → slot k = slot k1 → k = k1) : n ≤ 1047552 := by
  have h := Finset.card_le_card_of_injOn (s := Finset.range n) (t := Finset.Ico 2048 1049600)
    (fun k => slot k / 4)
    (by
      intro k hk
      have hk1 : k < n := Finset.mem_range.mp hk
      have h1 := hlo k hk1
      have h2 := hhi k hk1
      rw [PAGESIZE_eq] at h1
      rw [PT_AREA_SIZE_eq] at h2
      simp only [Finset.mem_Ico]
      omega)
    (by
      intro k hk k1 hk1 he
      have hk2 : k < n := Finset.mem_range.mp hk
      have hk3 : k1 < n := Finset.mem_range.mp hk1
      have h1 := hal k hk2
      have h2 := hal k1 hk3
      simp only at he
      exact hinj k k1 hk2 hk3 (by omega))
  simpa using h

theorem Inv.count {B : PteBits} {m : Machine} {n : Nat} {slot : Nat → Nat}
    (h : Inv B m n slot) : n ≤ 1047552 :=
  slot_count slot n h.slot_lo
    (fun k hk => Nat.le_trans (h.slot_hi k hk) h.pt_hi) h.slot_al h.slot_inj

/-- The machine that the first `vmsim_init` leaves satisfies the invariant
with no frame bound. -/
theorem Inv_init (B : PteBits) (E : Env) (m : Machine) (slot : Nat → Nat)
    (h : vmsim_init E initial_globals = some m) : Inv B m 0 slot := by
  obtain ⟨_, _, _, rs, hrs, _, rfl⟩ := vmsim_init_first E initial_globals m rfl h
  have hmem : (init_result E initial_globals rs).mem = fun _ => 0 :=
    writeBytes_zero_page (fun _ => 0) rfl
  have hw : ∀ p, word32 (init_result E initial_globals rs).mem p = 0 := by
    intro p; rw [hmem]; rfl
  exact {
    upt := rfl
    nb := rfl
    pt_lo := show 2 * PAGESIZE ≤ (PAGESIZE + PAGESIZE) % W32 by decide
    pt_hi := show (PAGESIZE + PAGESIZE) % W32 ≤ PT_AREA_SIZE by decide
    pt_al := show (PAGESIZE + PAGESIZE) % W32 % PAGESIZE = 0 by decide
    rfree := rfl
    lim := rfl
    size := hrs
    zone := fun h => absurd h (by decide)
    byte0 := by rw [hmem]
    upper := fun i _ => Or.inl (hw _)
    upper_inj := fun i i1 _ _ h0 _ => absurd (hw _) h0
    slot_lo := fun k hk => absurd hk (by omega)
    slot_hi := fun k hk => absurd hk (by omega)
    slot_al := fun k hk => absurd hk (by omega)
    slot_inj := fun k k1 hk => absurd hk (by omega)
    slot_val := fun k hk => absurd hk (by omega)
    rmap := fun k hk => absurd hk (by omega)
    lower := fun p _ _ _ => Or.inl (hw p) }

/-! ## The two effects of a fault keep the invariant -/

theorem writeBytes_other (mem : Nat → Nat) (buf : List Nat) (p size x : Nat)
    (h : x < p ∨ p + size ≤ x) : writeBytes mem buf p size x = mem x := by
  unfold writeBytes
  have : ¬ (p ≤ x ∧ x < p + size) := by omega
  simp only [this, if_false]

theorem Inv_bind_frame (B : PteBits) (hB : B.lowBits) (m : Machine) (n : Nat)
    (slot : Nat → Nat) (h : Inv B m n slot) (p : Nat)
    (hp_lo : 2 * PAGESIZE ≤ p) (hp_hi : p + 4 ≤ m.pt_free_addr) (hp_al : p % 4 = 0)
    (hp0 : word32 m.mem p = 0) (hfree : m.real_free_addr < m.real_size) :
    Inv B (bind_frame B m p) (n + 1) (fun k => if k = n then p else slot k) := by
  have hne : ∀ k, k < n → slot k ≠ p := by
    intro k hk he
    have hv := h.slot_val k hk
    rw [he, hp0] at hv
    exact SET_RESIDENT_ne_zero B hB _ (frame_addr_aligned k) hv.symm
  have s_lo : ∀ k, k < n + 1 → 2 * PAGESIZE ≤ (fun k => if k = n then p else slot k) k := by
    intro k hk
    by_cases hkn : k = n
    · simp only [hkn, if_true]; exact hp_lo
    · simp only [hkn, if_false]; exact h.slot_lo k (by omega)
  have s_hi : ∀ k, k < n + 1 →
      (fun k => if k = n then p else slot k) k + 4 ≤ m.pt_free_addr := by
    intro k hk
    by_cases hkn : k = n
    · simp only [hkn, if_true]; exact hp_hi
    · simp only [hkn, if_false]; exact h.slot_hi k (by omega)
  have s_al : ∀ k, k < n + 1 → (fun k => if k = n then p else slot k) k % 4 = 0 := by
    intro k hk
    by_cases hkn : k = n
    · simp only [hkn, if_true]; exact hp_al
    · simp only [hkn, if_false]; exact h.slot_al k (by omega)
  have s_inj : ∀ k k1, k < n + 1 → k1 < n + 1 →
      (fun k => if k = n then p else slot k) k = (fun k => if k = n then p else slot k) k1 →
      k = k1 := by
    intro k k1 hk hk1 he
    by_cases hkn : k = n
    · by_cases hk1n : k1 = n
      · omega
      · simp only [hkn, if_true, hk1n, if_false] at he
        exact absurd he.symm (hne k1 (by omega))
    · by_cases hk1n : k1 = n
      · simp only [hkn, if_false, hk1n, if_true] at he
        exact absurd he (hne k (by omega))
      · simp only [hkn, hk1n, if_false] at he
        exact h.slot_inj k k1 (by omega) (by omega) he
  have hcount : n + 1 ≤ 1047552 :=
    slot_count _ (n + 1) s_lo (fun k hk => Nat.le_trans (s_hi k hk) h.pt_hi) s_al s_inj
  have hidx : (m.real_free_addr + W32 - m.normal_base_addr) % W32 / PAGESIZE = n := by
    rw [h.rfree, h.nb]; exact frame_index n (by omega)
  have hv : SET_RESIDENT B m.real_free_addr < W32 := by
    rw [h.rfree]; exact frame_or_lt _ _ (frame_addr_lt n) hB.2.1
  have hw_other : ∀ q, (q + 4 ≤ p ∨ p + 4 ≤ q) →
      word32 (bind_frame B m p).mem q = word32 m.mem q :=
    fun q hq => word32_write_other _ _ _ _ _ hq
  have hw_same : word32 (bind_frame B m p).mem p = SET_RESIDENT B (frame_addr n) := by
    show word32 (writeBytes m.mem (bytes32 (SET_RESIDENT B m.real_free_addr)) p 4) p = _
    rw [word32_write_same _ _ _ hv, h.rfree]
  have hP := PAGESIZE_eq
  have hup : ∀ i, i < 1024 →
      word32 (bind_frame B m p).mem (PAGESIZE + i * 4) = word32 m.mem (PAGESIZE + i * 4) := by
    intro i hi
    exact hw_other _ (by omega)
  have hsl : ∀ k, k < n → word32 (bind_frame B m p).mem (slot k) = word32 m.mem (slot k) := by
    intro k hk
    have := hne k hk
    have := h.slot_al k hk
    exact hw_other _ (by omega)
  exact {
    upt := h.upt
    nb := h.nb
    pt_lo := h.pt_lo
    pt_hi := h.pt_hi
    pt_al := h.pt_al
    rfree := by
      show (m.real_free_addr + PAGESIZE) % W32 = frame_addr (n + 1)
      rw [h.rfree, frame_addr_succ]
    lim := h.lim
    size := h.size
    zone := by
      intro _
      show PT_AREA_SIZE < m.real_size
      by_cases hn : 0 < n
      · exact h.zone hn
      · have : n = 0 := by omega
        subst this
        have := h.rfree
        have e : frame_addr 0 = PT_AREA_SIZE := rfl
        omega
    byte0 := by
      show writeBytes m.mem _ p 4 PAGESIZE = 0
      rw [writeBytes_other _ _ _ _ _ (by omega)]
      exact h.byte0
    upper := by
      intro i hi
      rw [hup i hi]
      exact h.upper i hi
    upper_inj := by
      intro i i1 hi hi1
      rw [hup i hi, hup i1 hi1]
      exact h.upper_inj i i1 hi hi1
    slot_lo := s_lo
    slot_hi := s_hi
    slot_al := s_al
    slot_inj := s_inj
    slot_val := by
      intro k hk
      by_cases hkn : k = n
      · simp only [hkn, if_true]; exact hw_same
      · simp only [hkn, if_false]
        rw [hsl k (by omega)]
        exact h.slot_val k (by omega)
    rmap := by
      intro k hk
      show (if k = (m.real_free_addr + W32 - m.normal_base_addr) % W32 / PAGESIZE then p
        else m.reverse_page_map k) = _
      rw [hidx]
      by_cases hkn : k = n
      · simp only [hkn, if_true]
      · simp only [hkn, if_false]
        exact h.rmap k (by omega)
    lower := by
      intro q hq1 hq2 hq3
      by_cases hqp : q = p
      · right
        exact ⟨n, by omega, by simp [hqp]⟩
      · rw [hw_other q (by omega)]
        rcases h.lower q hq1 hq2 hq3 with h0 | ⟨k, hk, he⟩
        · exact Or.inl h0
        · right
          refine ⟨k, by omega, ?_⟩
          have : k ≠ n := by omega
          simp only [this, if_false]
          exact he }

theorem upper_pte_addr_eq (B : PteBits) (m : Machine) (n : Nat) (slot : Nat → Nat)
    (h : Inv B m n slot) (sim_addr : Nat) :
    upper_pte_addr m sim_addr = PAGESIZE + GET_UPPER_INDEX sim_addr * 4 := by
  unfold upper_pte_addr
  rw [h.upt]
  have := GET_UPPER_INDEX_lt sim_addr
  rw [PAGESIZE_eq, W32_eq]
  omega

theorem Inv_new_table (B : PteBits) (m : Machine) (n : Nat) (slot : Nat → Nat)
    (h : Inv B m n slot) (sim_addr : Nat)
    (hroom : m.pt_free_addr + PAGESIZE ≤ PT_AREA_SIZE) :
    Inv B (new_table m sim_addr) n slot := by
  have hi := GET_UPPER_INDEX_lt sim_addr
  have hP := PAGESIZE_eq
  have hA := PT_AREA_SIZE_eq
  have hW := W32_eq
  have hlo := h.pt_lo
  have hhi := h.pt_hi
  have hal := h.pt_al
  rw [PAGESIZE_eq] at hal
  have hT : m.pt_free_addr < W32 := by omega
  have hmem : (new_table m sim_addr).mem
      = writeBytes m.mem (bytes32 m.pt_free_addr) (PAGESIZE + GET_UPPER_INDEX sim_addr * 4) 4 := by
    show writeBytes m.mem (bytes32 m.pt_free_addr) (upper_pte_addr m sim_addr) 4 = _
    rw [upper_pte_addr_eq B m n slot h]
  have hpt : (new_table m sim_addr).pt_free_addr = m.pt_free_addr + PAGESIZE := by
    show (m.pt_free_addr + PAGESIZE) % W32 = _
    exact Nat.mod_eq_of_lt (by omega)
  have hw_other : ∀ q, (q + 4 ≤ PAGESIZE + GET_UPPER_INDEX sim_addr * 4 ∨
      PAGESIZE + GET_UPPER_INDEX sim_addr * 4 + 4 ≤ q) →
      word32 (new_table m sim_addr).mem q = word32 m.mem q := by
    intro q hq
    rw [hmem]
    exact word32_write_other _ _ _ _ _ hq
  have hw_same : word32 (new_table m sim_addr).mem (PAGESIZE + GET_UPPER_INDEX sim_addr * 4)
      = m.pt_free_addr := by
    rw [hmem]
    exact word32_write_same _ _ _ hT
  have hup : ∀ i, i < 1024 → i ≠ GET_UPPER_INDEX sim_addr →
      word32 (new_table m sim_addr).mem (PAGESIZE + i * 4) = word32 m.mem (PAGESIZE + i * 4) := by
    intro i _ hne
    exact hw_other _ (by omega)
  have hold : ∀ i, i < 1024 → word32 m.mem (PAGESIZE + i * 4) ≠ m.pt_free_addr := by
    intro i hi1 he
    rcases h.upper i hi1 with h0 | ⟨_, h2, _⟩
    · omega
    · omega
  exact {
    upt := h.upt
    nb := h.nb
    pt_lo := by rw [hpt]; omega
    pt_hi := by rw [hpt]; exact hroom
    pt_al := by rw [hpt, PAGESIZE_eq]; omega
    rfree := h.rfree
    lim := h.lim
    size := h.size
    zone := h.zone
    byte0 := by
      rw [hmem]
      by_cases h0 : GET_UPPER_INDEX sim_addr = 0
      · rw [h0]
        show writeBytes m.mem (bytes32 m.pt_free_addr) (PAGESIZE + 0 * 4) 4 PAGESIZE = 0
        unfold writeBytes bytes32
        simp
        omega
      · rw [writeBytes_other _ _ _ _ _ (by omega)]
        exact h.byte0
    upper := by
      intro i hi1
      by_cases hii : i = GET_UPPER_INDEX sim_addr
      · right
        rw [hii, hw_same, hpt]
        exact ⟨hlo, by omega, h.pt_al⟩
      · rw [hup i hi1 hii, hpt]
        rcases h.upper i hi1 with h0 | ⟨h1, h2, h3⟩
        · exact Or.inl h0
        · exact Or.inr ⟨h1, by omega, h3⟩
    upper_inj := by
      intro i i1 hi1 hi2 hnz he
      by_cases hii : i = GET_UPPER_INDEX sim_addr
      · by_cases hii1 : i1 = GET_UPPER_INDEX sim_addr
        · omega
        · rw [hii, hw_same, hup i1 hi2 hii1] at he
          exact absurd he.symm (hold i1 hi2)
      · by_cases hii1 : i1 = GET_UPPER_INDEX sim_addr
        · rw [hii1, hw_same, hup i hi1 hii] at he
          exact absurd he (hold i hi1)
        · rw [hup i hi1 hii] at hnz he
          rw [hup i1 hi2 hii1] at he
          exact h.upper_inj i i1 hi1 hi2 hnz he
    slot_lo := h.slot_lo
    slot_hi := by
      intro k hk
      rw [hpt]
      have := h.slot_hi k hk
      omega
    slot_al := h.slot_al
    slot_inj := h.slot_inj
    slot_val := by
      intro k hk
      have := h.slot_lo k hk
      rw [hw_other _ (by omega)]
      exact h.slot_val k hk
    rmap := h.rmap
    lower := by
      intro q hq1 hq2 hq3
      rw [hw_other _ (by omega)]
      exact h.lower q hq1 hq2 hq3 }

/-! ## A fault on a reached machine -/

theorem Inv.size_raw {B : PteBits} {m : Machine} {n : Nat} {slot : Nat → Nat}
    (h : Inv B m n slot) : (m.real_base + PAGESIZE + 1) % W64 ≤ m.real_limit :=
  h.size

theorem allocate_pt_eq (m : Machine) (hs : (m.real_base + PAGESIZE + 1) % W64 ≤ m.real_limit)
    (h0 : m.mem PAGESIZE = 0) (hal : m.pt_free_addr % 4096 = 0)
    (hlt : m.pt_free_addr + PAGESIZE < W32) :
    allocate_pt m =
      if m.pt_free_addr + PAGESIZE ≤ PT_AREA_SIZE then
        some (m.pt_free_addr, { m with pt_free_addr := (m.pt_free_addr + PAGESIZE) % W32 })
      else none := by
  unfold allocate_pt
  have ha : IS_ALIGNED m.pt_free_addr = true := (IS_ALIGNED_iff _).mpr hal
  simp only [ha, Bool.not_true, Bool.false_eq_true, if_false, Nat.mod_eq_of_lt hlt]
  by_cases hroom : m.pt_free_addr + PAGESIZE ≤ PT_AREA_SIZE
  · simp only [hroom, not_true_eq_false, if_false, if_true]
    rw [clear_page_id _ _ (by exact hs) (by exact h0)]
    rfl
  · simp only [hroom, not_false_eq_true, if_true, if_false]

/-- An entry of a lower table of a reached machine is zero or resident. -/
theorem Inv.entry {B : PteBits} {m : Machine} {n : Nat} {slot : Nat → Nat}
    (h : Inv B m n slot) (hB : B.lowBits) (p : Nat) (h1 : 2 * PAGESIZE ≤ p)
    (h2 : p + 4 ≤ PT_AREA_SIZE) (h3 : p % 4 = 0)
    (hr : IS_RESIDENT B (word32 m.mem p) = false) : word32 m.mem p = 0 := by
  rcases h.lower p h1 h2 h3 with h0 | ⟨k, hk, he⟩
  · exact h0
  · rw [he, h.slot_val k hk, IS_RESIDENT_frame B hB _ (frame_addr_aligned k)] at hr
    exact absurd hr (by decide)

theorem lower_pte_addr_eq (u sim_addr : Nat) (hu : u < PT_AREA_SIZE) (ha : u % 4096 = 0) :
    lower_pte_addr u sim_addr = u + GET_LOWER_INDEX sim_addr * 4 := by
  unfold lower_pte_addr
  have hj := GET_LOWER_INDEX_lt sim_addr
  rw [PT_AREA_SIZE_eq] at hu
  rw [GET_PAGE_ADDR_aligned u (by rw [W32_eq]; omega) ha, W32_eq]
  omega

/-- The fault handler on a reached machine, reduced to the two effects. -/
theorem vmsim_map_fault_eq (B : PteBits) (hB : B.lowBits) (U : Uninit) (fuel : Nat)
    (m : Machine) (n : Nat) (slot : Nat → Nat) (h : Inv B m n slot) (sim_addr : Nat) :
    vmsim_map_fault B U fuel m sim_addr =
      if (m.real_base + upper_pte_addr m sim_addr + 4) % W64 ≤ m.real_limit then
        if word32 m.mem (upper_pte_addr m sim_addr) = 0 then
          if m.pt_free_addr + PAGESIZE ≤ PT_AREA_SIZE then
            map_page B (new_table m sim_addr) (lower_pte_addr m.pt_free_addr sim_addr)
          else none
        else map_page B m (lower_pte_addr (word32 m.mem (upper_pte_addr m sim_addr)) sim_addr)
      else none := by
  have hP := PAGESIZE_eq
  have hA := PT_AREA_SIZE_eq
  have hW := W32_eq
  have hi := GET_UPPER_INDEX_lt sim_addr
  have hj := GET_LOWER_INDEX_lt sim_addr
  have hlo := h.pt_lo
  have hhi := h.pt_hi
  have hal := h.pt_al
  rw [PAGESIZE_eq] at hal
  have hupt : m.upper_pt ≠ 0 := by rw [h.upt]; decide
  have hfa : m.real_free_addr % 4096 = 0 := by rw [h.rfree]; exact frame_addr_aligned n
  unfold vmsim_map_fault
  simp only [hupt, if_false]
  show (match read32 m (upper_pte_addr m sim_addr) with
    | none => none
    | some upper_pte => _) = _
  by_cases hb : (m.real_base + upper_pte_addr m sim_addr + 4) % W64 ≤ m.real_limit
  · rw [read32_eq m _ hb]
    simp only [hb, if_true]
    by_cases hu : word32 m.mem (upper_pte_addr m sim_addr) = 0
    · simp only [hu, if_true]
      rw [allocate_pt_eq m h.size_raw h.byte0 hal (by omega)]
      by_cases hroom : m.pt_free_addr + PAGESIZE ≤ PT_AREA_SIZE
      · have hne : m.pt_free_addr ≠ 0 := by omega
        simp only [hroom, if_true, hne, if_false]
        rw [write32_eq _ _ _ (by exact hb)]
        have hnt := Inv_new_table B m n slot h sim_addr hroom
        show vmsim_map_fault_lower B U fuel (new_table m sim_addr) m.pt_free_addr sim_addr = _
        have hl := lower_pte_addr_eq m.pt_free_addr sim_addr (by omega) hal
        apply vmsim_map_fault_lower_eq B U fuel _ _ _ hnt.size_raw hnt.byte0 hfa
        intro hr
        have hpt := hnt.pt_hi
        have hal1 := hnt.pt_al
        exact hnt.entry hB _ (by rw [hl]; omega) (by rw [hl]; omega) (by rw [hl]; omega) hr
      · simp only [hroom, if_false]
    · simp only [hu, if_false]
      rw [upper_pte_addr_eq B m n slot h] at hu ⊢
      rcases h.upper _ hi with h0 | ⟨h1, h2, h3⟩
      · exact absurd h0 hu
      · have h4 : word32 m.mem (PAGESIZE + GET_UPPER_INDEX sim_addr * 4) % 4096 = 0 := h3
        have hl := lower_pte_addr_eq (word32 m.mem (PAGESIZE + GET_UPPER_INDEX sim_addr * 4))
          sim_addr (by omega) h4
        apply vmsim_map_fault_lower_eq B U fuel _ _ _ h.size_raw h.byte0 hfa
        intro hr
        exact h.entry hB _ (by rw [hl]; omega) (by rw [hl]; omega) (by rw [hl]; omega) hr
  · have : read32 m (upper_pte_addr m sim_addr) = none := by
      unfold read32 vmsim_read_real; simp [hb]
    rw [this]; simp [hb]

theorem Inv.zone_of_free {B : PteBits} {m : Machine} {n : Nat} {slot : Nat → Nat}
    (h : Inv B m n slot) (hfree : m.real_free_addr < m.real_size) :
    PT_AREA_SIZE < m.real_size := by
  by_cases hn : 0 < n
  · exact h.zone hn
  · have : n = 0 := by omega
    subst this
    have := h.rfree
    have e : frame_addr 0 = PT_AREA_SIZE := rfl
    omega

/-- A fault on an unmapped page of a reached machine, with room for a lower
table if one is missing and with a frame left to bump: it returns, the upper
entry `u` of the page is then a table address, and frame number `n` is bound
to the lower entry at `lower_pte_addr u sim_addr`. -/
theorem fault_unmapped (B : PteBits) (hB : B.lowBits) (U : Uninit) (fuel : Nat)
    (m : Machine) (n : Nat) (slot : Nat → Nat) (h : Inv B m n slot) (sim_addr : Nat)
    (hun : unmapped m sim_addr)
    (hroom : read32 m (upper_pte_addr m sim_addr) = some 0 →
      m.pt_free_addr + PAGESIZE ≤ PT_AREA_SIZE)
    (hfree : m.real_free_addr < m.real_size) :
    ∃ m1 u, vmsim_map_fault B U fuel m sim_addr = some m1 ∧
      m1.real_size = m.real_size ∧ m1.upper_pt = m.upper_pt ∧
      word32 m1.mem (upper_pte_addr m sim_addr) = u ∧ u ≠ 0 ∧
      Inv B m1 (n + 1) (fun k => if k = n then lower_pte_addr u sim_addr else slot k) := by
  have hP := PAGESIZE_eq
  have hA := PT_AREA_SIZE_eq
  have hW := W32_eq
  have hi := GET_UPPER_INDEX_lt sim_addr
  have hj := GET_LOWER_INDEX_lt sim_addr
  have hlo := h.pt_lo
  have hhi := h.pt_hi
  have hal : m.pt_free_addr % 4096 = 0 := h.pt_al
  have hz := h.zone_of_free hfree
  have hupa := upper_pte_addr_eq B m n slot h sim_addr
  have hlim := h.lim
  have hb : (m.real_base + upper_pte_addr m sim_addr + 4) % W64 ≤ m.real_limit :=
    Nat.le_trans (Nat.mod_le _ _) (by rw [hupa]; omega)
  rw [vmsim_map_fault_eq B hB U fuel m n slot h sim_addr]
  simp only [hb, if_true]
  by_cases hu : word32 m.mem (upper_pte_addr m sim_addr) = 0
  · have hr := hroom (by rw [read32_eq m _ hb, hu])
    simp only [hu, if_true, hr]
    have hnt := Inv_new_table B m n slot h sim_addr hr
    have hl := lower_pte_addr_eq m.pt_free_addr sim_addr (by omega) hal
    have hpt : (new_table m sim_addr).pt_free_addr = m.pt_free_addr + PAGESIZE := by
      show (m.pt_free_addr + PAGESIZE) % W32 = _
      exact Nat.mod_eq_of_lt (by omega)
    have hp0 : word32 (new_table m sim_addr).mem (lower_pte_addr m.pt_free_addr sim_addr) = 0 := by
      rcases hnt.lower (lower_pte_addr m.pt_free_addr sim_addr) (by rw [hl]; omega)
        (by rw [hl]; omega) (by rw [hl]; omega) with h0 | ⟨k, hk, he⟩
      · exact h0
      · have := h.slot_hi k hk
        omega
    have hbind := Inv_bind_frame B hB (new_table m sim_addr) n slot hnt
      (lower_pte_addr m.pt_free_addr sim_addr) (by rw [hl]; omega) (by rw [hl, hpt]; omega)
      (by rw [hl]; omega) hp0 hfree
    refine ⟨bind_frame B (new_table m sim_addr) (lower_pte_addr m.pt_free_addr sim_addr),
      m.pt_free_addr, ?_, rfl, rfl, ?_, by omega, hbind⟩
    · unfold map_page
      have hb2 : ((new_table m sim_addr).real_base
          + lower_pte_addr m.pt_free_addr sim_addr + 4) % W64
          ≤ (new_table m sim_addr).real_limit := by
        apply Nat.le_trans (Nat.mod_le _ _)
        show m.real_base + _ + 4 ≤ m.real_limit
        rw [hl]; omega
      have hf2 : (new_table m sim_addr).real_free_addr < (new_table m sim_addr).real_size := hfree
      simp only [hb2, if_true, hp0, IS_RESIDENT_zero, Bool.false_eq_true, if_false, hf2]
    · have e := hbind.upper (GET_UPPER_INDEX sim_addr) hi
      have hw : word32 (bind_frame B (new_table m sim_addr)
          (lower_pte_addr m.pt_free_addr sim_addr)).mem (upper_pte_addr m sim_addr)
          = word32 (new_table m sim_addr).mem (upper_pte_addr m sim_addr) :=
        word32_write_other _ _ _ _ _ (by rw [hupa, hl]; omega)
      rw [hw]
      show word32 (writeBytes m.mem (bytes32 m.pt_free_addr) (upper_pte_addr m sim_addr) 4)
        (upper_pte_addr m sim_addr) = _
      exact word32_write_same _ _ _ (by omega)
  · simp only [hu, if_false]
    have hu1 := hu
    rw [hupa] at hu1
    rcases h.upper _ hi with h0 | ⟨h1, h2, h3⟩
    · exact absurd h0 hu1
    · have h4 : word32 m.mem (PAGESIZE + GET_UPPER_INDEX sim_addr * 4) % 4096 = 0 := h3
      rw [← hupa] at h1 h2 h4
      have hl := lower_pte_addr_eq (word32 m.mem (upper_pte_addr m sim_addr)) sim_addr
        (by omega) h4
      -- the page is unmapped, so its lower entry is zero
      have hp0 : word32 m.mem (lower_pte_addr (word32 m.mem (upper_pte_addr m sim_addr)) sim_addr)
          = 0 := by
        rcases hun with hA1 | hB1
        · rw [read32_eq m _ hb] at hA1
          exact absurd (Option.some.inj hA1) hu
        · unfold lower_pte lower_slot at hB1
          rw [read32_eq m _ hb] at hB1
          simp only [hu, if_false, Option.bind_some] at hB1
          have := (read32_some _ _ _ hB1).2
          exact this.symm
      have hbind := Inv_bind_frame B hB m n slot h
        (lower_pte_addr (word32 m.mem (upper_pte_addr m sim_addr)) sim_addr)
        (by rw [hl]; omega) (by rw [hl]; omega) (by rw [hl]; omega) hp0 hfree
      refine ⟨bind_frame B m
        (lower_pte_addr (word32 m.mem (upper_pte_addr m sim_addr)) sim_addr),
        word32 m.mem (upper_pte_addr m sim_addr), ?_, rfl, rfl, ?_, hu, hbind⟩
      · unfold map_page
        have hb2 : (m.real_base
            + lower_pte_addr (word32 m.mem (upper_pte_addr m sim_addr)) sim_addr + 4) % W64
            ≤ m.real_limit := Nat.le_trans (Nat.mod_le _ _) (by rw [hl]; omega)
        simp only [hb2, if_true, hp0, IS_RESIDENT_zero, Bool.false_eq_true, if_false, hfree]
      · exact word32_write_other _ _ _ _ _ (by rw [hl]; omega)

/-- A fault that returns on a reached machine found the page resident and
changed nothing, or found it unmapped with room for what it had to allocate. -/
theorem fault_some_cases (B : PteBits) (hB : B.lowBits) (U : Uninit) (fuel : Nat)
    (m m1 : Machine) (n : Nat) (slot : Nat → Nat) (h : Inv B m n slot) (sim_addr : Nat)
    (hf : vmsim_map_fault B U fuel m sim_addr = some m1) :
    (resident B m sim_addr ∧ m1 = m) ∨
    (unmapped m sim_addr ∧
      (read32 m (upper_pte_addr m sim_addr) = some 0 →
        m.pt_free_addr + PAGESIZE ≤ PT_AREA_SIZE) ∧
      m.real_free_addr < m.real_size) := by
  have hP := PAGESIZE_eq
  have hA := PT_AREA_SIZE_eq
  have hW := W32_eq
  have hi := GET_UPPER_INDEX_lt sim_addr
  have hj := GET_LOWER_INDEX_lt sim_addr
  have hlo := h.pt_lo
  have hhi := h.pt_hi
  have hal : m.pt_free_addr % 4096 = 0 := h.pt_al
  have hupa := upper_pte_addr_eq B m n slot h sim_addr
  rw [vmsim_map_fault_eq B hB U fuel m n slot h sim_addr] at hf
  by_cases hb : (m.real_base + upper_pte_addr m sim_addr + 4) % W64 ≤ m.real_limit
  · simp only [hb, if_true] at hf
    by_cases hu : word32 m.mem (upper_pte_addr m sim_addr) = 0
    · simp only [hu, if_true] at hf
      by_cases hr : m.pt_free_addr + PAGESIZE ≤ PT_AREA_SIZE
      · simp only [hr, if_true] at hf
        right
        refine ⟨Or.inl (by rw [read32_eq m _ hb, hu]), fun _ => hr, ?_⟩
        have hnt := Inv_new_table B m n slot h sim_addr hr
        have hl := lower_pte_addr_eq m.pt_free_addr sim_addr (by omega) hal
        have hp0 : word32 (new_table m sim_addr).mem (lower_pte_addr m.pt_free_addr sim_addr)
            = 0 := by
          rcases hnt.lower (lower_pte_addr m.pt_free_addr sim_addr) (by rw [hl]; omega)
            (by rw [hl]; omega) (by rw [hl]; omega) with h0 | ⟨k, hk, he⟩
          · exact h0
          · have := h.slot_hi k hk
            omega
        unfold map_page at hf
        by_cases hb2 : ((new_table m sim_addr).real_base
            + lower_pte_addr m.pt_free_addr sim_addr + 4) % W64
            ≤ (new_table m sim_addr).real_limit
        · simp only [hb2, if_true, hp0, IS_RESIDENT_zero, Bool.false_eq_true, if_false] at hf
          by_cases hfree : (new_table m sim_addr).real_free_addr < (new_table m sim_addr).real_size
          · exact hfree
          · simp [hfree] at hf
        · simp [hb2] at hf
      · simp [hr] at hf
    · simp only [hu, if_false] at hf
      have hu1 := hu
      rw [hupa] at hu1
      rcases h.upper _ hi with h0 | ⟨h1, h2, h3⟩
      · exact absurd h0 hu1
      · have h4 : word32 m.mem (PAGESIZE + GET_UPPER_INDEX sim_addr * 4) % 4096 = 0 := h3
        rw [← hupa] at h1 h2 h4
        have hl := lower_pte_addr_eq (word32 m.mem (upper_pte_addr m sim_addr)) sim_addr
          (by omega) h4
        unfold map_page at hf
        by_cases hb2 : (m.real_base
            + lower_pte_addr (word32 m.mem (upper_pte_addr m sim_addr)) sim_addr + 4) % W64
            ≤ m.real_limit
        · simp only [hb2, if_true] at hf
          have hlp : lower_pte m sim_addr = some (word32 m.mem
              (lower_pte_addr (word32 m.mem (upper_pte_addr m sim_addr)) sim_addr)) := by
            unfold lower_pte lower_slot
            rw [read32_eq m _ hb]
            simp only [hu, if_false, Option.bind_some]
            exact read32_eq m _ hb2
          by_cases hres : IS_RESIDENT B (word32 m.mem
              (lower_pte_addr (word32 m.mem (upper_pte_addr m sim_addr)) sim_addr)) = true
          · simp only [hres, if_true, Option.some.injEq] at hf
            exact Or.inl ⟨⟨_, hlp, hres⟩, hf.symm⟩
          · have hres1 : IS_RESIDENT B (word32 m.mem
                (lower_pte_addr (word32 m.mem (upper_pte_addr m sim_addr)) sim_addr)) = false := by
              simpa using hres
            simp only [hres1, Bool.false_eq_true, if_false] at hf
            have hp0 := h.entry hB _ (by rw [hl]; omega) (by rw [hl]; omega)
              (by rw [hl]; omega) hres1
            right
            refine ⟨Or.inr (by rw [hlp, hp0]), ?_, ?_⟩
            · intro h0
              rw [read32_eq m _ hb] at h0
              exact absurd (Option.some.inj h0) hu
            · by_cases hfree : m.real_free_addr < m.real_size
              · exact hfree
              · simp [hfree] at hf
        · simp [hb2] at hf
  · simp [hb] at hf

/-! ## The invariant along runs -/

theorem fault_step (B : PteBits) (hB : B.lowBits) (U : Uninit) (fuel : Nat)
    (m m1 : Machine) (n : Nat) (slot : Nat → Nat) (h : Inv B m n slot) (sim_addr : Nat)
    (hf : vmsim_map_fault B U fuel m sim_addr = some m1) :
    ∃ n1 slot1, Inv B m1 n1 slot1 ∧ n ≤ n1 ∧ ∀ k, k < n → slot1 k = slot k := by
  rcases fault_some_cases B hB U fuel m m1 n slot h sim_addr hf with ⟨_, rfl⟩ | ⟨hun, hroom, hfree⟩
  · exact ⟨n, slot, h, Nat.le_refl n, fun _ _ => rfl⟩
  · obtain ⟨m2, u, hf2, _, _, _, _, hinv⟩ :=
      fault_unmapped B hB U fuel m n slot h sim_addr hun hroom hfree
    rw [hf] at hf2
    obtain rfl := Option.some.inj hf2
    refine ⟨n + 1, _, hinv, Nat.le_succ n, ?_⟩
    intro k hk
    have : k ≠ n := by omega
    simp only [this, if_false]

theorem Reach_inv (B : PteBits) (hB : B.lowBits) (E : Env) (m : Machine)
    (h : Reach B E m) : ∃ n slot, Inv B m n slot := by
  induction h with
  | init h0 => exact ⟨0, fun _ => 0, Inv_init B E _ _ h0⟩
  | fault U fuel sim_addr _ hf ih =>
    obtain ⟨n, slot, hinv⟩ := ih
    obtain ⟨n1, slot1, h1, _, _⟩ := fault_step B hB U fuel _ _ n slot hinv sim_addr hf
    exact ⟨n1, slot1, h1⟩

theorem Faults_inv (B : PteBits) (hB : B.lowBits) (m m2 : Machine) (h : Faults B m m2) :
    ∀ (n : Nat) (slot : Nat → Nat), Inv B m n slot →
      ∃ n1 slot1, Inv B m2 n1 slot1 ∧ n ≤ n1 ∧ ∀ k, k < n → slot1 k = slot k := by
  induction h with
  | refl m => exact fun n slot hinv => ⟨n, slot, hinv, Nat.le_refl n, fun _ _ => rfl⟩
  | fault U fuel sim_addr hf _ ih =>
    intro n slot hinv
    obtain ⟨n1, slot1, h1, hle, hs⟩ := fault_step B hB U fuel _ _ n slot hinv sim_addr hf
    obtain ⟨n2, slot2, h2, hle2, hs2⟩ := ih n1 slot1 h1
    refine ⟨n2, slot2, h2, Nat.le_trans hle hle2, ?_⟩
    intro k hk
    rw [hs2 k (by omega), hs k hk]

/-- The slot of a page of a reached machine lies in a lower table. -/
theorem lower_slot_inv (B : PteBits) (m : Machine) (n : Nat) (slot : Nat → Nat)
    (h : Inv B m n slot) (sim_addr p : Nat) (hp : lower_slot m sim_addr = some p) :
    ∃ u, word32 m.mem (PAGESIZE + GET_UPPER_INDEX sim_addr * 4) = u ∧ 2 * PAGESIZE ≤ u ∧
      u < m.pt_free_addr ∧ u % 4096 = 0 ∧ p = u + GET_LOWER_INDEX sim_addr * 4 := by
  have hA := PT_AREA_SIZE_eq
  have hhi := h.pt_hi
  unfold lower_slot at hp
  cases hr : read32 m (upper_pte_addr m sim_addr) with
  | none => rw [hr] at hp; exact absurd hp (by simp)
  | some u =>
    rw [hr] at hp
    simp only at hp
    by_cases hu : u = 0
    · simp [hu] at hp
    · simp only [hu, if_false, Option.some.injEq] at hp
      have hw := (read32_some _ _ _ hr).2
      rw [upper_pte_addr_eq B m n slot h] at hw
      rcases h.upper _ (GET_UPPER_INDEX_lt sim_addr) with h0 | ⟨h1, h2, h3⟩
      · rw [← hw] at h0; exact absurd h0 hu
      · rw [← hw] at h1 h2 h3
        have h4 : u % 4096 = 0 := h3
        refine ⟨u, hw.symm, h1, h2, h4, ?_⟩
        rw [← hp, lower_pte_addr_eq u sim_addr (by omega) h4]

/-- A resident entry in a slot of a reached machine belongs to one of the
bound frames. -/
theorem slot_of_resident (B : PteBits) (m : Machine) (n : Nat)
    (slot : Nat → Nat) (h : Inv B m n slot) (sim_addr p l : Nat)
    (hp : lower_slot m sim_addr = some p) (hl : read32 m p = some l)
    (hr : IS_RESIDENT B l = true) :
    ∃ k, k < n ∧ p = slot k ∧ l = SET_RESIDENT B (frame_addr k) := by
  have hP := PAGESIZE_eq
  have hj := GET_LOWER_INDEX_lt sim_addr
  have hhi := h.pt_hi
  have hal : m.pt_free_addr % 4096 = 0 := h.pt_al
  obtain ⟨u, _, h1, h2, h3, rfl⟩ := lower_slot_inv B m n slot h sim_addr p hp
  have hw := (read32_some _ _ _ hl).2
  rcases h.lower (u + GET_LOWER_INDEX sim_addr * 4) (by omega) (by omega) (by omega)
    with h0 | ⟨k, hk, he⟩
  · rw [hw, h0, IS_RESIDENT_zero] at hr
    exact absurd hr (by decide)
  · refine ⟨k, hk, he, ?_⟩
    rw [hw, he, h.slot_val k hk]

/-! ## Claim C1: the round trip through the simulated address space -/

/-- A fault for a page that is not resident when the bump pointer has reached
the end of the arena does not return: it needs `swap_out`. -/
theorem vmsim_map_fault_exhausted (B : PteBits) (U : Uninit) (fuel : Nat) (m : Machine)
    (sim_addr u l : Nat)
    (hu : read32 m (upper_pte_addr m sim_addr) = some u) (hu0 : u ≠ 0)
    (hl : read32 m (lower_pte_addr u sim_addr) = some l) (hnr : IS_RESIDENT B l = false)
    (hfull : ¬ m.real_free_addr < m.real_size) :
    vmsim_map_fault B U fuel m sim_addr = none := by
  unfold upper_pte_addr at hu
  unfold lower_pte_addr at hl
  unfold vmsim_map_fault vmsim_map_fault_lower allocate_real_page
  by_cases h0 : m.upper_pt = 0
  · simp [h0]
  · simp only [h0, if_false, hu, hu0, hl, hnr, Bool.not_false, if_true, hfull, swap_out_none]

/-- The translator does not return for such a page either. -/
theorem mmu_translate_rw_exhausted (B : PteBits) (U : Uninit) (fuel : Nat) (m : Machine)
    (sim_addr u l : Nat) (w : Bool) (hpt : m.upper_pt_addr = m.upper_pt)
    (hu : read32 m (upper_pte_addr m sim_addr) = some u) (hu0 : u ≠ 0)
    (hl : read32 m (lower_pte_addr u sim_addr) = some l) (hnr : IS_RESIDENT B l = false)
    (hfull : ¬ m.real_free_addr < m.real_size) :
    mmu_translate_rw B U fuel m sim_addr w = none := by
  cases fuel with
  | zero => rfl
  | succ fuel =>
    have hf := vmsim_map_fault_exhausted B U fuel m sim_addr u l hu hu0 hl hnr hfull
    unfold upper_pte_addr at hu
    unfold lower_pte_addr at hl
    unfold mmu_translate_rw
    simp only [hpt, hu, hu0, if_false, hl, hnr, Bool.not_false, if_true, hf]

/-- C1 (evaluation at the failing input): in a process whose data pool has
one frame, `vmsim_write({0x11}, 4096, 1)` returns and `vmsim_read` of address
4096 gives the byte back; the machine is then initialised, and
`vmsim_write({0xAB}, 8192, 1)`, to a second page, never returns, whatever the
fuel and the stale locals: the fault handler needs `swap_out`, which has no
way out of its loop.  So no `vmsim_read` can follow that gives `0xAB`. -/
theorem C1_round_trip_stops_at_eviction :
    vmsim_write bits124 ⟨0, 0⟩ one_frame_env 2 initial_globals [0x11] 4096 1
      = some one_page_written ∧
    (vmsim_read bits124 ⟨0, 0⟩ one_frame_env 1 one_page_written 4096 1).map Prod.fst
      = some [0x11] ∧
    one_page_written.real_base ≠ 0 ∧
    ∀ (U : Uninit) (fuel : Nat),
      vmsim_write bits124 U one_frame_env fuel one_page_written [0xAB] 8192 1 = none := by
  refine ⟨rfl, rfl, by decide, ?_⟩
  intro U fuel
  have h := mmu_translate_rw_exhausted bits124 U fuel one_page_written 8192 8192 0 true
    rfl rfl (by decide) rfl rfl (by decide)
  unfold vmsim_write vmsim_map
  rw [vmsim_init_again one_frame_env one_page_written (by decide)]
  have hb : ¬ one_page_written.real_base = 0 := by decide
  simp only [hb, if_false, h]

/-! ## Claims C2 and C3: the translator of `mmu.c` -/

/-- C2 (evaluation at the failing input): after `vmsim_init` and
`vmsim_map_fault(4096)` the upper entry of simulated address 4101 holds 8192
and its lower entry holds frame 4198400 with the resident flag, yet
`mmu_translate(4101)` returns whatever its unassigned local `phys_addr`
holds, not 4198400 + 5. -/
theorem C2_translate_ignores_mapping :
    ∃ m, booted_mapped = some m ∧
      read32 m (upper_pte_addr m 4101) = some 8192 ∧
      read32 m (lower_pte_addr 8192 4101) = some (4198400 ||| 1) ∧
      ∀ (U : Uninit) (fuel : Nat),
        mmu_translate bits124 U (fuel + 1) m 4101 = some (U.phys_addr, m) :=
  ⟨_, rfl, rfl, rfl, fun _ _ => rfl⟩

/-- C3 (evaluation at the failing input): after `vmsim_init` the upper entry of
simulated address 4096 is zero, and `mmu_translate(4096)` returns with the
machine exactly as it was: the fault handler has not run, and the upper entry
is still zero. -/
theorem C3_translate_never_faults :
    ∃ m, booted = some m ∧
      read32 m (upper_pte_addr m 4096) = some 0 ∧
      ∀ (U : Uninit) (fuel : Nat),
        mmu_translate bits124 U (fuel + 1) m 4096 = some (U.phys_addr, m) :=
  ⟨_, rfl, rfl, fun _ _ => rfl⟩

/-! ## Claim C4: the first touch of a page -/

/-- C4: in every state reached from the initial globals by `vmsim_init` and
`vmsim_map_fault` calls that return, if the page of `sim_addr` is unmapped,
the page-table zone has a free block and the bump pointer of the data pool is
below `real_size`, then `vmsim_map_fault(sim_addr)` returns, and afterwards
the upper entry of `sim_addr` is not zero and the lower entry it leads to
holds the old `real_free_addr` with the resident flag set and the referenced
and dirty flags clear (the flag masks lying in the low 12 bits). -/
theorem C4_fault_first_touch (B : PteBits) (E : Env) (U : Uninit) (fuel : Nat)
    (m : Machine) (sim_addr : Nat) (hB : B.lowBits) (hreach : Reach B E m)
    (hun : unmapped m sim_addr) (hpt : m.pt_free_addr + PAGESIZE ≤ PT_AREA_SIZE)
    (hfree : m.real_free_addr < m.real_size) :
    ∃ m1 u, vmsim_map_fault B U fuel m sim_addr = some m1 ∧
      read32 m1 (upper_pte_addr m1 sim_addr) = some u ∧ u ≠ 0 ∧
      read32 m1 (lower_pte_addr u sim_addr) = some (SET_RESIDENT B m.real_free_addr) ∧
      GET_PAGE_ADDR (SET_RESIDENT B m.real_free_addr) = m.real_free_addr ∧
      IS_RESIDENT B (SET_RESIDENT B m.real_free_addr) = true ∧
      IS_REFERENCED B (SET_RESIDENT B m.real_free_addr) = false ∧
      IS_DIRTY B (SET_RESIDENT B m.real_free_addr) = false := by
  obtain ⟨n, slot, h⟩ := Reach_inv B hB E m hreach
  obtain ⟨m1, u, hf, hsz, hupt, hu, hu0, hinv⟩ :=
    fault_unmapped B hB U fuel m n slot h sim_addr hun (fun _ => hpt) hfree
  have hP := PAGESIZE_eq
  have hA := PT_AREA_SIZE_eq
  have hi := GET_UPPER_INDEX_lt sim_addr
  have hz := h.zone_of_free hfree
  have hF : m.real_free_addr < W32 := by rw [h.rfree]; exact frame_addr_lt n
  have ha : m.real_free_addr % 4096 = 0 := by rw [h.rfree]; exact frame_addr_aligned n
  have hupa := upper_pte_addr_eq B m n slot h sim_addr
  have hupa1 : upper_pte_addr m1 sim_addr = upper_pte_addr m sim_addr := by
    unfold upper_pte_addr; rw [hupt]
  have hs := hinv.slot_hi n (by omega)
  have hv := hinv.slot_val n (by omega)
  have hpt1 := hinv.pt_hi
  have hlim1 := hinv.lim
  simp only [if_true] at hs hv
  refine ⟨m1, u, hf, ?_, hu0, ?_, GET_PAGE_ADDR_frame B hB _ hF ha, IS_RESIDENT_frame B hB _ ha,
    IS_REFERENCED_frame B hB _ ha, IS_DIRTY_frame B hB _ ha⟩
  · rw [hupa1, read32_eq m1 _ (Nat.le_trans (Nat.mod_le _ _) (by rw [hupa]; omega)), hu]
  · rw [read32_eq m1 _ (Nat.le_trans (Nat.mod_le _ _) (by omega)), hv, h.rfree]

/-- C4 at a concrete input: the first fault, at address 4096, of a process
with the default arena. -/
theorem C4_fault_first_touch_witness :
    ∃ m1 u, vmsim_map_fault bits124 ⟨0, 0⟩ 0 (init_result boot_env initial_globals (MB 5)) 4096
        = some m1 ∧
      read32 m1 (upper_pte_addr m1 4096) = some u ∧ u ≠ 0 ∧
      read32 m1 (lower_pte_addr u 4096) = some (SET_RESIDENT bits124 PT_AREA_SIZE) ∧
      GET_PAGE_ADDR (SET_RESIDENT bits124 PT_AREA_SIZE) = PT_AREA_SIZE ∧
      IS_RESIDENT bits124 (SET_RESIDENT bits124 PT_AREA_SIZE) = true ∧
      IS_REFERENCED bits124 (SET_RESIDENT bits124 PT_AREA_SIZE) = false ∧
      IS_DIRTY bits124 (SET_RESIDENT bits124 PT_AREA_SIZE) = false :=
  C4_fault_first_touch bits124 boot_env ⟨0, 0⟩ 0 (init_result boot_env initial_globals (MB 5))
    4096 (by decide) (Reach.init rfl) (Or.inl rfl) (by decide) (by decide)

/-! ## Claims C5 and C6: one call of the fault handler -/

theorem vmsim_map_fault_resident (B : PteBits) (U : Uninit) (fuel : Nat) (m : Machine)
    (sim_addr u l : Nat)
    (hu : read32 m (upper_pte_addr m sim_addr) = some u) (hu0 : u ≠ 0)
    (hl : read32 m (lower_pte_addr u sim_addr) = some l) (hres : IS_RESIDENT B l = true) :
    vmsim_map_fault B U fuel m sim_addr = if m.upper_pt = 0 then none else some m := by
  unfold upper_pte_addr at hu
  unfold lower_pte_addr at hl
  unfold vmsim_map_fault vmsim_map_fault_lower
  by_cases h0 : m.upper_pt = 0
  · simp [h0]
  · simp only [h0, if_false, hu, hu0, hl, hres, Bool.not_true, Bool.false_eq_true]

/-- C5: let the upper table exist and the arena end at `real_base + real_size`,
let the upper entry of `sim_addr` be `u`, not zero, and the lower entry it
leads to hold `b << 1` for a block number `1 ≤ b < 2^31`, with the resident
flag clear; let `F = real_free_addr` be a page-aligned frame of the data zone
below `real_size`, that is, available by bump allocation.  Then `vmsim_map_fault(sim_addr)` returns, the backing store
has seen exactly one more call, `bs_read(F, b)`, and afterwards that lower
entry holds `F` with the resident flag set and the referenced and dirty flags
clear. -/
theorem C5_fault_swapped_page (B : PteBits) (U : Uninit) (fuel : Nat) (m : Machine)
    (sim_addr u b : Nat) (hB : B.lowBits) (hpt : m.upper_pt ≠ 0)
    (hlim : m.real_limit = m.real_base + m.real_size)
    (hu : read32 m (upper_pte_addr m sim_addr) = some u) (hu0 : u ≠ 0)
    (hb1 : 1 ≤ b) (hb2 : b < 2 ^ 31)
    (hl : read32 m (lower_pte_addr u sim_addr) = some (b <<< 1))
    (hnr : IS_RESIDENT B (b <<< 1) = false)
    (hzone : PT_AREA_SIZE ≤ m.real_free_addr) (hfree : m.real_free_addr < m.real_size)
    (hF : m.real_free_addr < W32) (hal : IS_ALIGNED m.real_free_addr = true) :
    ∃ m1, vmsim_map_fault B U fuel m sim_addr = some m1 ∧
      m1.bs_log = m.bs_log ++ [BsCall.read m.real_free_addr b] ∧
      read32 m1 (lower_pte_addr u sim_addr) = some (SET_RESIDENT B m.real_free_addr) ∧
      GET_PAGE_ADDR (SET_RESIDENT B m.real_free_addr) = m.real_free_addr ∧
      IS_RESIDENT B (SET_RESIDENT B m.real_free_addr) = true ∧
      IS_REFERENCED B (SET_RESIDENT B m.real_free_addr) = false ∧
      IS_DIRTY B (SET_RESIDENT B m.real_free_addr) = false := by
  have ha : m.real_free_addr % 4096 = 0 := (IS_ALIGNED_iff _).mp hal
  have hsz : (m.real_base + PAGESIZE + 1) % W64 ≤ m.real_limit := by
    apply Nat.le_trans (Nat.mod_le _ _)
    rw [PT_AREA_SIZE_eq] at hzone; rw [PAGESIZE_eq]; omega
  have hbound := (read32_some _ _ _ hl).1
  have hne : b <<< 1 ≠ 0 := by
    rw [Nat.shiftLeft_eq]; omega
  have hblk : (b <<< 1) >>> 1 = b := by
    rw [Nat.shiftLeft_eq, Nat.shiftRight_eq_div_pow]; omega
  have hval : SET_RESIDENT B m.real_free_addr < W32 := frame_or_lt _ _ hF hB.2.1
  unfold upper_pte_addr at hu
  unfold lower_pte_addr at hl hbound ⊢
  have key : ∃ m1 mem1, vmsim_map_fault B U fuel m sim_addr = some m1 ∧
      m1.bs_log = m.bs_log ++ [BsCall.read m.real_free_addr b] ∧
      m1.real_base = m.real_base ∧ m1.real_limit = m.real_limit ∧
      m1.mem = writeBytes mem1 (bytes32 (SET_RESIDENT B m.real_free_addr))
        ((GET_PAGE_ADDR u + GET_LOWER_INDEX sim_addr * 4) % W32) 4 := by
    unfold vmsim_map_fault vmsim_map_fault_lower
    simp only [hpt, if_false, hu, hu0, hl, hnr, Bool.not_false, if_true,
      allocate_real_page_bump B U fuel m hfree hal hsz, hne, ne_eq, not_false_eq_true,
      swap_in, hblk]
    rw [write32_eq _ _ _ (by exact hbound)]
    exact ⟨_, _, rfl, rfl, rfl, rfl, rfl⟩
  obtain ⟨m1, mem1, h1, h2, h3, h3a, h4⟩ := key
  refine ⟨m1, h1, h2, ?_, GET_PAGE_ADDR_frame B hB _ hF ha, IS_RESIDENT_frame B hB _ ha,
    IS_REFERENCED_frame B hB _ ha, IS_DIRTY_frame B hB _ ha⟩
  rw [read32_eq _ _ (by rw [h3, h3a]; exact hbound), h4, word32_write_same _ _ _ hval]

/-- C5 at a concrete input: the machine after `vmsim_init` and
`vmsim_map_fault(4096)` with the lower entry of address 4096 rewritten to
block 7. -/
theorem C5_fault_swapped_page_witness :
    ∃ m1, vmsim_map_fault bits124 ⟨0, 0⟩ 0 swapped_machine 4096 = some m1 ∧
      m1.bs_log = swapped_machine.bs_log ++ [BsCall.read swapped_machine.real_free_addr 7] ∧
      read32 m1 (lower_pte_addr 8192 4096)
        = some (SET_RESIDENT bits124 swapped_machine.real_free_addr) ∧
      GET_PAGE_ADDR (SET_RESIDENT bits124 swapped_machine.real_free_addr)
        = swapped_machine.real_free_addr ∧
      IS_RESIDENT bits124 (SET_RESIDENT bits124 swapped_machine.real_free_addr) = true ∧
      IS_REFERENCED bits124 (SET_RESIDENT bits124 swapped_machine.real_free_addr) = false ∧
      IS_DIRTY bits124 (SET_RESIDENT bits124 swapped_machine.real_free_addr) = false :=
  C5_fault_swapped_page bits124 ⟨0, 0⟩ 0 swapped_machine 4096 8192 7 (by decide) (by decide)
    rfl rfl (by decide) (by decide) (by decide) rfl rfl (by decide) (by decide) (by decide) rfl

/-- C6: in every state in which the upper entry of `sim_addr` is not zero and
the lower entry it leads to has the resident flag, `vmsim_map_fault(sim_addr)`
returns the machine exactly as it was (arena, `pt_free_addr`,
`real_free_addr`, reverse map, `clock_hand`, `bs_free_block` and all the
rest) whenever the upper table exists (`upper_pt` is not zero); without an
upper table the call stops at its entry assertion and leaves no state at
all.  Hence two calls in a row do what one call does. -/
theorem C6_fault_idempotent_on_resident (B : PteBits) (U : Uninit) (fuel : Nat) (m : Machine)
    (sim_addr u l : Nat)
    (hu : read32 m (upper_pte_addr m sim_addr) = some u) (hu0 : u ≠ 0)
    (hl : read32 m (lower_pte_addr u sim_addr) = some l) (hres : IS_RESIDENT B l = true) :
    vmsim_map_fault B U fuel m sim_addr = (if m.upper_pt = 0 then none else some m) ∧
    (vmsim_map_fault B U fuel m sim_addr).bind (fun m1 => vmsim_map_fault B U fuel m1 sim_addr)
      = vmsim_map_fault B U fuel m sim_addr := by
  have h := vmsim_map_fault_resident B U fuel m sim_addr u l hu hu0 hl hres
  refine ⟨h, ?_⟩
  by_cases h0 : m.upper_pt = 0
  · rw [h]; simp [h0]
  · rw [h]; simp only [h0, if_false]
    show vmsim_map_fault B U fuel m sim_addr = some m
    rw [h]; simp [h0]

/-- C6 at a concrete input: the machine after `vmsim_init` and
`vmsim_map_fault(4096)`, faulted again at address 4096. -/
theorem C6_fault_idempotent_on_resident_witness :
    vmsim_map_fault bits124 ⟨0, 0⟩ 0 mapped_machine 4096
      = (if mapped_machine.upper_pt = 0 then none else some mapped_machine) ∧
    (vmsim_map_fault bits124 ⟨0, 0⟩ 0 mapped_machine 4096).bind
        (fun m1 => vmsim_map_fault bits124 ⟨0, 0⟩ 0 m1 4096)
      = vmsim_map_fault bits124 ⟨0, 0⟩ 0 mapped_machine 4096 :=
  C6_fault_idempotent_on_resident bits124 ⟨0, 0⟩ 0 mapped_machine 4096 8192 4198401
    rfl (by decide) rfl rfl

/-! ## Claims C7 and C8: frames and the reverse map along runs -/

/-- C7: in every state reached from the initial globals by `vmsim_init` and
`vmsim_map_fault` calls that return, two distinct lower-entry slots that hold
resident entries hold different frame addresses; and two simulated addresses
of different pages have distinct slots. -/
theorem C7_no_aliasing (B : PteBits) (E : Env) (m : Machine) (hB : B.lowBits)
    (hreach : Reach B E m) (a a1 p p1 l l1 : Nat)
    (hp : lower_slot m a = some p) (hp1 : lower_slot m a1 = some p1)
    (hl : read32 m p = some l) (hl1 : read32 m p1 = some l1)
    (hr : IS_RESIDENT B l = true) (hr1 : IS_RESIDENT B l1 = true) :
    (p ≠ p1 → GET_PAGE_ADDR l ≠ GET_PAGE_ADDR l1) ∧
    ((GET_UPPER_INDEX a, GET_LOWER_INDEX a) ≠ (GET_UPPER_INDEX a1, GET_LOWER_INDEX a1) →
      p ≠ p1) := by
  obtain ⟨n, slot, h⟩ := Reach_inv B hB E m hreach
  have hn := h.count
  constructor
  · intro hne he
    obtain ⟨k, hk, rfl, rfl⟩ := slot_of_resident B m n slot h a p l hp hl hr
    obtain ⟨k1, hk1, rfl, rfl⟩ := slot_of_resident B m n slot h a1 p1 l1 hp1 hl1 hr1
    rw [GET_PAGE_ADDR_frame B hB _ (frame_addr_lt k) (frame_addr_aligned k),
      GET_PAGE_ADDR_frame B hB _ (frame_addr_lt k1) (frame_addr_aligned k1)] at he
    have := frame_addr_inj k k1 (by omega) (by omega) he
    subst this
    exact hne rfl
  · intro hne he
    obtain ⟨u, hu, h1, h2, h3, rfl⟩ := lower_slot_inv B m n slot h a p hp
    obtain ⟨u1, hu1, h4, h5, h6, hp2⟩ := lower_slot_inv B m n slot h a1 p1 hp1
    have hj := GET_LOWER_INDEX_lt a
    have hj1 := GET_LOWER_INDEX_lt a1
    have hP := PAGESIZE_eq
    have e1 : u = u1 := by omega
    have e2 : GET_LOWER_INDEX a = GET_LOWER_INDEX a1 := by omega
    have e3 : GET_UPPER_INDEX a = GET_UPPER_INDEX a1 :=
      h.upper_inj _ _ (GET_UPPER_INDEX_lt a) (GET_UPPER_INDEX_lt a1) (by rw [hu]; omega)
        (by rw [hu, hu1, e1])
    exact hne (by rw [e2, e3])

/-- C7 at a concrete input: the pages of addresses 4096 and 8192 after both
have been faulted in. -/
theorem C7_no_aliasing_witness :
    (8196 ≠ 8200 → GET_PAGE_ADDR 4198401 ≠ GET_PAGE_ADDR 4202497) ∧
    ((GET_UPPER_INDEX 4096, GET_LOWER_INDEX 4096) ≠ (GET_UPPER_INDEX 8192, GET_LOWER_INDEX 8192) →
      8196 ≠ 8200) :=
  C7_no_aliasing bits124 boot_env two_pages_machine (by decide)
    (Reach.fault ⟨0, 0⟩ 0 8192 (Reach.fault ⟨0, 0⟩ 0 4096 (Reach.init rfl) rfl) rfl)
    4096 8192 8196 8200 4198401 4202497 rfl rfl rfl rfl rfl rfl

/-- C8: let a fault on a reached machine `m1` return `m2` for a page that was
not resident, so that it binds the frame `F = real_free_addr` of `m1`; let
`k = (F - normal_base_addr) / PAGESIZE` in 32-bit arithmetic.  Then right
after the fault `reverse_page_map[k]` is the address `p` of the lower entry of
the page, which holds `F` with the resident flag; and in every state `m`
reached from there by further faults that return, `reverse_page_map[k]` is
still `p`, the entry at `p` is resident, its frame address is `F`, and `F` is
`normal_base_addr + k * PAGESIZE` as a 32-bit value. -/
theorem C8_reverse_map (B : PteBits) (E : Env) (U : Uninit) (fuel : Nat)
    (m1 m2 m : Machine) (sim_addr : Nat) (hB : B.lowBits) (hreach : Reach B E m1)
    (hf : vmsim_map_fault B U fuel m1 sim_addr = some m2)
    (hnr : ¬ resident B m1 sim_addr) (hlater : Faults B m2 m) :
    ∃ p l, lower_slot m2 sim_addr = some p ∧
      read32 m2 p = some (SET_RESIDENT B m1.real_free_addr) ∧
      m2.reverse_page_map ((m1.real_free_addr + W32 - m1.normal_base_addr) % W32 / PAGESIZE) = p ∧
      m.reverse_page_map ((m1.real_free_addr + W32 - m1.normal_base_addr) % W32 / PAGESIZE) = p ∧
      read32 m p = some l ∧ IS_RESIDENT B l = true ∧
      GET_PAGE_ADDR l = m1.real_free_addr ∧
      m1.real_free_addr = (m.normal_base_addr
        + (m1.real_free_addr + W32 - m1.normal_base_addr) % W32 / PAGESIZE * PAGESIZE) % W32 := by
  obtain ⟨n, slot, h⟩ := Reach_inv B hB E m1 hreach
  rcases fault_some_cases B hB U fuel m1 m2 n slot h sim_addr hf with ⟨hres, _⟩ | ⟨hun, hroom, hfree⟩
  · exact absurd hres hnr
  · obtain ⟨m3, u, hf3, hsz, hupt, hu, hu0, hinv⟩ :=
      fault_unmapped B hB U fuel m1 n slot h sim_addr hun hroom hfree
    rw [hf] at hf3
    obtain rfl := Option.some.inj hf3
    obtain ⟨n1, slot1, hinv1, hle, hs⟩ := Faults_inv B hB m2 m hlater _ _ hinv
    have hP := PAGESIZE_eq
    have hA := PT_AREA_SIZE_eq
    have hW := W32_eq
    have hi := GET_UPPER_INDEX_lt sim_addr
    have hcount := hinv.count
    have hz := h.zone_of_free hfree
    have hidx : (m1.real_free_addr + W32 - m1.normal_base_addr) % W32 / PAGESIZE = n := by
      rw [h.rfree, h.nb]; exact frame_index n (by omega)
    have hupa := upper_pte_addr_eq B m1 n slot h sim_addr
    have hupa2 : upper_pte_addr m2 sim_addr = upper_pte_addr m1 sim_addr := by
      unfold upper_pte_addr; rw [hupt]
    have hs2 := hinv.slot_hi n (by omega)
    have hv2 := hinv.slot_val n (by omega)
    have hr2 := hinv.rmap n (by omega)
    have hpt2 := hinv.pt_hi
    have hlim2 := hinv.lim
    have hlim1 := hinv1.lim
    simp only [if_true] at hs2 hv2 hr2
    have hsn := hs n (by omega)
    simp only [if_true] at hsn
    have hs1 := hinv1.slot_hi n (by omega)
    have hv1 := hinv1.slot_val n (by omega)
    have hr1 := hinv1.rmap n (by omega)
    have hpt1 := hinv1.pt_hi
    have hz1 := hinv1.zone (by omega)
    rw [hsn] at hs1 hv1 hr1
    have ha := frame_addr_aligned n
    refine ⟨lower_pte_addr u sim_addr, SET_RESIDENT B (frame_addr n), ?_, ?_, ?_, ?_, ?_,
      IS_RESIDENT_frame B hB _ ha, ?_, ?_⟩
    · unfold lower_slot
      rw [hupa2, read32_eq m2 _ (Nat.le_trans (Nat.mod_le _ _) (by rw [hupa]; omega)), hu]
      simp only [hu0, if_false]
    · rw [read32_eq m2 _ (Nat.le_trans (Nat.mod_le _ _) (by omega)), hv2, h.rfree]
    · rw [hidx]; exact hr2
    · rw [hidx]; exact hr1
    · rw [read32_eq m _ (Nat.le_trans (Nat.mod_le _ _) (by omega)), hv1]
    · rw [GET_PAGE_ADDR_frame B hB _ (frame_addr_lt n) ha, h.rfree]
    · rw [hidx, hinv1.nb, h.rfree]
      unfold frame_addr
      rw [Nat.mul_comm]

/-- C8 at a concrete input: the first fault of a process, at address 4096,
binds frame 0; the state is looked at again after a second fault, at address
8192. -/
theorem C8_reverse_map_witness :
    ∃ p l, lower_slot mapped_machine 4096 = some p ∧
      read32 mapped_machine p = some (SET_RESIDENT bits124
        (init_result boot_env initial_globals (MB 5)).real_free_addr) ∧
      mapped_machine.reverse_page_map
        (((init_result boot_env initial_globals (MB 5)).real_free_addr + W32
          - (init_result boot_env initial_globals (MB 5)).normal_base_addr) % W32 / PAGESIZE) = p ∧
      two_pages_machine.reverse_page_map
        (((init_result boot_env initial_globals (MB 5)).real_free_addr + W32
          - (init_result boot_env initial_globals (MB 5)).normal_base_addr) % W32 / PAGESIZE) = p ∧
      read32 two_pages_machine p = some l ∧ IS_RESIDENT bits124 l = true ∧
      GET_PAGE_ADDR l = (init_result boot_env initial_globals (MB 5)).real_free_addr ∧
      (init_result boot_env initial_globals (MB 5)).real_free_addr
        = (two_pages_machine.normal_base_addr
          + ((init_result boot_env initial_globals (MB 5)).real_free_addr + W32
            - (init_result boot_env initial_globals (MB 5)).normal_base_addr) % W32
              / PAGESIZE * PAGESIZE) % W32 :=
  C8_reverse_map bits124 boot_env ⟨0, 0⟩ 0 (init_result boot_env initial_globals (MB 5))
    mapped_machine two_pages_machine 4096 (by decide) (Reach.init rfl) rfl
    (fun ⟨_, h, _⟩ => Option.noConfusion h)
    (Faults.fault ⟨0, 0⟩ 0 8192 rfl (Faults.refl _))

/-! ## Claims C9 and C10: initialisation and the bump allocator -/

theorem vmsim_init_twice (E E1 : Env) (m : Machine) :
    (vmsim_init E m).bind (vmsim_init E1) = vmsim_init E m := by
  cases h : vmsim_init E m with
  | none => rfl
  | some m1 =>
    show vmsim_init E1 m1 = some m1
    exact vmsim_init_again E1 m1 (vmsim_init_real_base E m m1 h)

theorem vmsim_init_calls_initialised (Es : List Env) (m : Machine) (h : m.real_base ≠ 0) :
    vmsim_init_calls Es m = some m := by
  induction Es with
  | nil => rfl
  | cons E Es ih =>
    simp only [vmsim_init_calls, vmsim_init_again E m h, Option.bind_some]
    exact ih

theorem vmsim_init_calls_cons (E : Env) (Es : List Env) (m : Machine) :
    vmsim_init_calls (E :: Es) m = vmsim_init E m := by
  simp only [vmsim_init_calls]
  cases h : vmsim_init E m with
  | none => rfl
  | some m1 =>
    show vmsim_init_calls Es m1 = some m1
    exact vmsim_init_calls_initialised Es m1 (vmsim_init_real_base E m m1 h)

/-- C9: for every machine state and all environments, a second `vmsim_init`
leaves exactly what the first one leaves (the whole state: arena, `real_base`,
`upper_pt`, `pt_free_addr`, `sim_free_addr`, reverse map), and so does any
further number of calls; started from the initial globals, any such run that
returns has allocated the one block at `PAGESIZE` as upper table and left
`pt_free_addr` at `2 * PAGESIZE`, and with the default environment the run does
return. -/
theorem C9_vmsim_init_idempotent (E E1 : Env) (Es : List Env) (m : Machine) :
    (vmsim_init E m).bind (vmsim_init E1) = vmsim_init E m ∧
    vmsim_init_calls (E :: Es) m = vmsim_init E m ∧
    (vmsim_init_calls (E :: Es) initial_globals).map (fun m1 => (m1.upper_pt, m1.pt_free_addr))
      = (vmsim_init E initial_globals).map (fun _ => (PAGESIZE, 2 * PAGESIZE)) ∧
    (vmsim_init_calls (boot_env :: Es) initial_globals).isSome = true := by
  refine ⟨vmsim_init_twice E E1 m, vmsim_init_calls_cons E Es m, ?_, ?_⟩
  · rw [vmsim_init_calls_cons]
    cases h : vmsim_init E initial_globals with
    | none => rfl
    | some m1 =>
      obtain ⟨_, _, _, rs, _, _, rfl⟩ := vmsim_init_first E initial_globals m1 rfl h
      rfl
  · rw [vmsim_init_calls_cons]; rfl

theorem vmsim_alloc_initialised (E : Env) (m : Machine) (size : Nat) (h : m.real_base ≠ 0) :
    vmsim_alloc E m size
      = some (m.sim_free_addr, { m with sim_free_addr := (m.sim_free_addr + size) % W32 }) := by
  unfold vmsim_alloc
  rw [vmsim_init_again E m h]

/-- The ranges handed out by a run of `vmsim_alloc` calls lie, in order, in
the stretch between the bump pointer and the bump pointer plus the total size,
as long as that stretch ends within the 32-bit space. -/
theorem vmsim_alloc_calls_ranges (E : Env) (sizes : List Nat) :
    ∀ (m : Machine) (c : Nat), m.real_base ≠ 0 →
      (sizes.sum = 0 ∨ m.sim_free_addr = c % W32) → c + sizes.sum ≤ W32 →
      ∃ addrs m1, vmsim_alloc_calls E m sizes = some (addrs, m1) ∧
        addrs.length = sizes.length ∧
        (∀ p ∈ addrs.zip sizes, p.2 = 0 ∨ (c ≤ p.1 ∧ p.1 + p.2 ≤ c + sizes.sum)) ∧
        (addrs.zip sizes).Pairwise (fun p q => ¬ ranges_overlap p.1 p.2 q.1 q.2) := by
  induction sizes with
  | nil =>
    intro m c _ _ _
    exact ⟨[], m, rfl, rfl, by simp, by simp⟩
  | cons s ss ih =>
    intro m c hb hc hfit
    simp only [List.sum_cons] at hfit hc
    have hb1 : ({ m with sim_free_addr := (m.sim_free_addr + s) % W32 } : Machine).real_base ≠ 0 := hb
    have hc1 : ss.sum = 0 ∨
        ({ m with sim_free_addr := (m.sim_free_addr + s) % W32 } : Machine).sim_free_addr
          = (c + s) % W32 := by
      rcases hc with h0 | hc
      · left; omega
      · right
        show (m.sim_free_addr + s) % W32 = (c + s) % W32
        rw [hc, Nat.mod_add_mod]
    obtain ⟨as, m2, hrun, hlen, hin, hpw⟩ := ih _ (c + s) hb1 hc1 (by omega)
    have hfirst : s = 0 ∨ (m.sim_free_addr = c ∧ c < W32) := by
      by_cases hs : s = 0
      · exact Or.inl hs
      · right
        have hclt : c < W32 := by omega
        rcases hc with h0 | hc
        · omega
        · exact ⟨by rw [hc, Nat.mod_eq_of_lt hclt], hclt⟩
    refine ⟨m.sim_free_addr :: as, m2, ?_, ?_, ?_, ?_⟩
    · simp only [vmsim_alloc_calls, vmsim_alloc_initialised E m s hb, hrun]
    · simp [hlen]
    · intro p hp
      simp only [List.zip_cons_cons, List.mem_cons, List.sum_cons] at hp ⊢
      rcases hp with rfl | hp
      · rcases hfirst with h0 | ⟨h1, _⟩
        · exact Or.inl h0
        · right; simp only [h1]; omega
      · rcases hin p hp with h0 | ⟨h1, h2⟩
        · exact Or.inl h0
        · right; omega
    · simp only [List.zip_cons_cons, List.pairwise_cons]
      refine ⟨?_, hpw⟩
      intro q hq
      rintro ⟨x, hx1, hx2, hx3, hx4⟩
      rcases hfirst with h0 | ⟨h1, _⟩
      · omega
      · rcases hin q hq with h0 | ⟨h2, h3⟩
        · omega
        · omega

/-- C10 (counterexample): after initialisation, `vmsim_alloc(2^32)` and then
`vmsim_alloc(1)` both return 4096, and the ranges `[4096, 4096 + 2^32)` and
`[4096, 4097)` share the address 4096. -/
theorem C10_alloc_overlap :
    (∃ m1, booted.bind (fun m => vmsim_alloc_calls boot_env m [2 ^ 32, 1])
      = some ([4096, 4096], m1)) ∧
    ranges_overlap 4096 (2 ^ 32) 4096 1 :=
  ⟨⟨_, rfl⟩, ⟨4096, by decide, by decide, by decide, by decide⟩⟩

/-- C10 (amended): on an initialised machine, for every list of sizes whose
sum, added to the bump pointer `sim_free_addr`, does not exceed `2^32`, the
calls of `vmsim_alloc` all return and the ranges `[a_i, a_i + s_i)` they hand
out are pairwise disjoint. -/
theorem C10_alloc_disjoint (E : Env) (m : Machine) (sizes : List Nat)
    (hinit : m.real_base ≠ 0) (hfit : m.sim_free_addr + sizes.sum ≤ W32) :
    ∃ addrs m1, vmsim_alloc_calls E m sizes = some (addrs, m1) ∧
      addrs.length = sizes.length ∧
      (addrs.zip sizes).Pairwise (fun p q => ¬ ranges_overlap p.1 p.2 q.1 q.2) := by
  by_cases hlt : m.sim_free_addr < W32
  · obtain ⟨as, m1, h1, h2, _, h4⟩ :=
      vmsim_alloc_calls_ranges E sizes m m.sim_free_addr hinit
        (Or.inr (Nat.mod_eq_of_lt hlt).symm) hfit
    exact ⟨as, m1, h1, h2, h4⟩
  · obtain ⟨as, m1, h1, h2, _, h4⟩ :=
      vmsim_alloc_calls_ranges E sizes m m.sim_free_addr hinit (Or.inl (by omega)) hfit
    exact ⟨as, m1, h1, h2, h4⟩

/-- C10 (amended), at a concrete input: three allocations of 10, 0 and 4086
bytes on the freshly initialised machine. -/
theorem C10_alloc_disjoint_witness :
    ∃ addrs m1, vmsim_alloc_calls boot_env (init_result boot_env initial_globals (MB 5))
        [10, 0, 4086] = some (addrs, m1) ∧
      addrs.length = [10, 0, 4086].length ∧
      (addrs.zip [10, 0, 4086]).Pairwise (fun p q => ¬ ranges_overlap p.1 p.2 q.1 q.2) :=
  C10_alloc_disjoint boot_env (init_result boot_env initial_globals (MB 5)) [10, 0, 4086]
    (by decide) (by decide)

/-! ## Claim C11: the bounds check of the raw accessors -/

/-- C11 (counterexample): on the freshly initialised default arena, mapped at
address 65536, the access at `real_addr = 0` with `size = 2^64 - 65536` lies
far outside the arena, yet its 64-bit end pointer wraps to 0 and both
`vmsim_read_real` and `vmsim_write_real` pass their assertion. -/
theorem C11_wrapping_size_passes :
    (init_result boot_env initial_globals (MB 5)).real_limit
      = (init_result boot_env initial_globals (MB 5)).real_base
        + (init_result boot_env initial_globals (MB 5)).real_size ∧
    0 + (2 ^ 64 - 65536) > (init_result boot_env initial_globals (MB 5)).real_size ∧
    vmsim_read_real (init_result boot_env initial_globals (MB 5)) 0 (2 ^ 64 - 65536) ≠ none ∧
    vmsim_write_real (init_result boot_env initial_globals (MB 5)) [] 0 (2 ^ 64 - 65536)
      ≠ none := by
  have hc : ((init_result boot_env initial_globals (MB 5)).real_base + 0 + (2 ^ 64 - 65536))
      % W64 ≤ (init_result boot_env initial_globals (MB 5)).real_limit := by decide
  refine ⟨rfl, by decide, ?_, ?_⟩
  · unfold vmsim_read_real
    simp only [hc, if_true]
    exact Option.some_ne_none _
  · unfold vmsim_write_real
    simp only [hc, if_true]
    exact Option.some_ne_none _

/-- C11 (amended): on a machine whose arena ends at `real_base + real_size`,
as `vmsim_init` leaves it, and for an access whose end pointer
`real_base + real_addr + size` stays below `2^64`, `vmsim_read_real` and
`vmsim_write_real` fail their assertion exactly when
`real_addr + size > real_size`; a write that returns leaves everything but
the arena as it was and changes no byte outside
`[real_addr, real_addr + size)`.  A call that fails its assertion produces no
machine: the assertion comes before the copy. -/
theorem C11_raw_access_bounds (m : Machine) (buffer : List Nat) (real_addr size : Nat)
    (hlim : m.real_limit = m.real_base + m.real_size)
    (hfit : m.real_base + real_addr + size < W64) :
    (vmsim_read_real m real_addr size = none ↔ real_addr + size > m.real_size) ∧
    (vmsim_write_real m buffer real_addr size = none ↔ real_addr + size > m.real_size) ∧
    (∀ m1, vmsim_write_real m buffer real_addr size = some m1 →
      m1 = { m with mem := m1.mem } ∧
      ∀ x, ¬ (real_addr ≤ x ∧ x < real_addr + size) → m1.mem x = m.mem x) := by
  have he : (m.real_base + real_addr + size) % W64 = m.real_base + real_addr + size :=
    Nat.mod_eq_of_lt hfit
  refine ⟨?_, ?_, ?_⟩
  · unfold vmsim_read_real
    simp only [he]
    by_cases h : m.real_base + real_addr + size ≤ m.real_limit
    · simp only [h, if_true]
      constructor
      · intro h1; exact absurd h1 (by simp)
      · intro h1; omega
    · simp only [h, if_false, true_iff]
      omega
  · unfold vmsim_write_real
    simp only [he]
    by_cases h : m.real_base + real_addr + size ≤ m.real_limit
    · simp only [h, if_true]
      constructor
      · intro h1; exact absurd h1 (by simp)
      · intro h1; omega
    · simp only [h, if_false, true_iff]
      omega
  · intro m1 h1
    unfold vmsim_write_real at h1
    simp only [he] at h1
    by_cases h : m.real_base + real_addr + size ≤ m.real_limit
    · simp only [h, if_true, Option.some.injEq] at h1
      subst h1
      refine ⟨rfl, ?_⟩
      intro x hx
      show writeBytes m.mem buffer real_addr size x = m.mem x
      unfold writeBytes
      simp only [hx, if_false]
    · simp [h] at h1

/-- C11 (amended) at a concrete input: four bytes at real address 100 of the
freshly initialised default arena. -/
theorem C11_raw_access_bounds_witness :
    (vmsim_read_real (init_result boot_env initial_globals (MB 5)) 100 4 = none ↔
      100 + 4 > (init_result boot_env initial_globals (MB 5)).real_size) ∧
    (vmsim_write_real (init_result boot_env initial_globals (MB 5)) [1, 2, 3, 4] 100 4 = none ↔
      100 + 4 > (init_result boot_env initial_globals (MB 5)).real_size) ∧
    (∀ m1, vmsim_write_real (init_result boot_env initial_globals (MB 5)) [1, 2, 3, 4] 100 4
        = some m1 →
      m1 = { init_result boot_env initial_globals (MB 5) with mem := m1.mem } ∧
      ∀ x, ¬ (100 ≤ x ∧ x < 100 + 4) →
        m1.mem x = (init_result boot_env initial_globals (MB 5)).mem x) :=
  C11_raw_access_bounds (init_result boot_env initial_globals (MB 5)) [1, 2, 3, 4] 100 4 rfl
    (by decide)

/-! ## Claim C12: the capacity of the page-table zone -/

theorem allocate_pt_ok (m : Machine) (hal : m.pt_free_addr % 4096 = 0)
    (hb : (m.real_base + PAGESIZE + 1) % W64 ≤ m.real_limit)
    (hroom : m.pt_free_addr + PAGESIZE ≤ PT_AREA_SIZE) :
    allocate_pt m = some (m.pt_free_addr,
      { m with pt_free_addr := m.pt_free_addr + PAGESIZE
               mem := writeBytes m.mem (List.replicate PAGESIZE 0) PAGESIZE 1 }) := by
  have hA := PT_AREA_SIZE_eq
  have hW := W32_eq
  have hlt : (m.pt_free_addr + PAGESIZE) % W32 = m.pt_free_addr + PAGESIZE :=
    Nat.mod_eq_of_lt (by omega)
  unfold allocate_pt
  have ha : IS_ALIGNED m.pt_free_addr = true := (IS_ALIGNED_iff _).mpr hal
  simp only [ha, Bool.not_true, Bool.false_eq_true, if_false, hlt, hroom, not_true_eq_false]
  have h := clear_page_eq { m with pt_free_addr := m.pt_free_addr + PAGESIZE } m.pt_free_addr hb
  rw [h]
  rfl

theorem allocate_pt_full (m : Machine) (hle : m.pt_free_addr ≤ PT_AREA_SIZE)
    (hfull : PT_AREA_SIZE < m.pt_free_addr + PAGESIZE) : allocate_pt m = none := by
  have hA := PT_AREA_SIZE_eq
  have hW := W32_eq
  have hP := PAGESIZE_eq
  have hlt : (m.pt_free_addr + PAGESIZE) % W32 = m.pt_free_addr + PAGESIZE :=
    Nat.mod_eq_of_lt (by omega)
  unfold allocate_pt
  have hn : ¬ m.pt_free_addr + PAGESIZE ≤ PT_AREA_SIZE := by omega
  by_cases ha : IS_ALIGNED m.pt_free_addr = true
  · simp only [ha, Bool.not_true, Bool.false_eq_true, if_false, hlt, hn, not_false_eq_true,
      if_true]
  · simp [ha]

/-- As long as the zone has room, a run of `allocate_pt` calls returns the
successive blocks from `pt_free_addr` on. -/
theorem allocate_pt_calls_ok (n : Nat) :
    ∀ m : Machine, m.pt_free_addr % 4096 = 0 → (m.real_base + PAGESIZE + 1) % W64 ≤ m.real_limit →
      m.pt_free_addr + n * 4096 ≤ PT_AREA_SIZE →
      ∃ m1, allocate_pt_calls n m
          = some ((List.range n).map (fun k => m.pt_free_addr + 4096 * k), m1) ∧
        m1.pt_free_addr = m.pt_free_addr + n * 4096 := by
  induction n with
  | zero => intro m _ _ _; exact ⟨m, rfl, by simp⟩
  | succ n ih =>
    intro m hal hb hroom
    have hP := PAGESIZE_eq
    have h1 := allocate_pt_ok m hal hb (by omega)
    obtain ⟨m1, hrun, hpt⟩ := ih
      { m with pt_free_addr := m.pt_free_addr + PAGESIZE
               mem := writeBytes m.mem (List.replicate PAGESIZE 0) PAGESIZE 1 }
      (by show (m.pt_free_addr + PAGESIZE) % 4096 = 0; omega) hb
      (by show m.pt_free_addr + PAGESIZE + n * 4096 ≤ PT_AREA_SIZE; omega)
    have hl : (List.range (n + 1)).map (fun k => m.pt_free_addr + 4096 * k)
        = m.pt_free_addr
          :: (List.range n).map (fun k => m.pt_free_addr + PAGESIZE + 4096 * k) := by
      rw [List.range_succ_eq_map, List.map_cons, List.map_map]
      congr 1
      apply List.map_congr_left
      intro k _
      show m.pt_free_addr + 4096 * (k + 1) = m.pt_free_addr + PAGESIZE + 4096 * k
      omega
    refine ⟨m1, ?_, ?_⟩
    · rw [hl]
      simp only [allocate_pt_calls, h1, hrun]
    · rw [hpt]
      show m.pt_free_addr + PAGESIZE + n * 4096 = m.pt_free_addr + (n + 1) * 4096
      omega

/-- A run of `allocate_pt` calls that asks for more blocks than the zone has
left fails an assertion. -/
theorem allocate_pt_calls_full (n : Nat) :
    ∀ m : Machine, m.pt_free_addr % 4096 = 0 → (m.real_base + PAGESIZE + 1) % W64 ≤ m.real_limit →
      m.pt_free_addr ≤ PT_AREA_SIZE → PT_AREA_SIZE < m.pt_free_addr + n * 4096 →
      allocate_pt_calls n m = none := by
  induction n with
  | zero => intro m _ _ h1 h2; omega
  | succ n ih =>
    intro m hal hb hle hfull
    have hP := PAGESIZE_eq
    by_cases hroom : m.pt_free_addr + PAGESIZE ≤ PT_AREA_SIZE
    · have h1 := allocate_pt_ok m hal hb hroom
      have h2 := ih
        { m with pt_free_addr := m.pt_free_addr + PAGESIZE
                 mem := writeBytes m.mem (List.replicate PAGESIZE 0) PAGESIZE 1 }
        (by show (m.pt_free_addr + PAGESIZE) % 4096 = 0; omega) hb hroom
        (by show PT_AREA_SIZE < m.pt_free_addr + PAGESIZE + n * 4096; omega)
      simp only [allocate_pt_calls, h1, h2]
    · have h1 := allocate_pt_full m hle (by omega)
      simp only [allocate_pt_calls, h1]

/-- C12 (evaluation at the failing input): from the initial globals with a
16 MB arena mapped, 1024 successive calls of `allocate_pt` return the blocks
at `PAGESIZE * 1`, ..., `PAGESIZE * 1024`, and a run of 1025 calls fails the
assertion `pt_free_addr <= PT_AREA_SIZE` in its last call. -/
theorem C12_zone_holds_1024_blocks :
    (∃ m1, allocate_pt_calls 1024 (arena_globals (MB 16))
      = some ((List.range 1024).map (fun k => PAGESIZE + PAGESIZE * k), m1)) ∧
    allocate_pt_calls 1025 (arena_globals (MB 16)) = none := by
  constructor
  · obtain ⟨m1, h, _⟩ := allocate_pt_calls_ok 1024 (arena_globals (MB 16))
      (by decide) (by decide) (by decide)
    exact ⟨m1, h⟩
  · exact allocate_pt_calls_full 1025 (arena_globals (MB 16))
      (by decide) (by decide) (by decide) (by decide)

/-! ## Claim C13: the evictor does not return -/

/-- C13 (the code at every input): whatever the state, the stale value of its
local and the number of loop iterations allowed, `swap_out` produces no
result: its `while (true)` loop has no `return` and no `break`, so a run ends
only by a failed assertion or a division by zero. -/
theorem C13_swap_out_never_returns (B : PteBits) (fuel : Nat) (m : Machine)
    (real_page_addr : Nat) : swap_out B fuel m real_page_addr = none :=
  swap_out_none B fuel m real_page_addr

/-! ## Claim C14: the decomposition of a simulated address -/

theorem and_1023 (x : Nat) : x &&& 0x3ff = x % 1024 := by
  have h := Nat.and_pow_two_sub_one_eq_mod x 10
  simpa using h

/-- C14: for every 32-bit simulated address the upper and lower indexes are
below 1024 and the offset below 4096, the three parts put back together with
shifts and bitwise or give the address, and the page address plus the offset
gives the address, the page address being aligned. -/
theorem C14_address_decomposition (a : Nat) (ha : a < W32) :
    GET_UPPER_INDEX a < 1024 ∧ GET_LOWER_INDEX a < 1024 ∧ GET_OFFSET a < 4096 ∧
    (GET_UPPER_INDEX a <<< 22) ||| (GET_LOWER_INDEX a <<< 12) ||| GET_OFFSET a = a ∧
    GET_PAGE_ADDR a + GET_OFFSET a = a ∧ IS_ALIGNED (GET_PAGE_ADDR a) = true := by
  rw [W32_eq] at ha
  have hU : GET_UPPER_INDEX a = a / 4194304 % 1024 := by
    unfold GET_UPPER_INDEX
    rw [and_1023, Nat.shiftRight_eq_div_pow]
  have hL : GET_LOWER_INDEX a = a / 4096 % 1024 := by
    unfold GET_LOWER_INDEX
    rw [and_1023, Nat.shiftRight_eq_div_pow]
  have hO : GET_OFFSET a = a % 4096 := and_offset_mask a
  have hP : GET_PAGE_ADDR a = a / 4096 * 4096 :=
    and_page_number_mask a (by omega)
  refine ⟨GET_UPPER_INDEX_lt a, GET_LOWER_INDEX_lt a, by rw [hO]; omega, ?_, ?_, ?_⟩
  · rw [hU, hL, hO, Nat.shiftLeft_eq, Nat.shiftLeft_eq, Nat.or_assoc]
    have h1 : a / 4096 % 1024 * 2 ^ 12 ||| a % 4096
        = 2 ^ 12 * (a / 4096 % 1024) + a % 4096 := by
      rw [Nat.mul_comm]
      exact (Nat.mul_add_lt_is_or (i := 12) (by omega) _).symm
    rw [h1]
    have h2 : a / 4194304 % 1024 * 2 ^ 22 ||| (2 ^ 12 * (a / 4096 % 1024) + a % 4096)
        = 2 ^ 22 * (a / 4194304 % 1024) + (2 ^ 12 * (a / 4096 % 1024) + a % 4096) := by
      rw [Nat.mul_comm]
      exact (Nat.mul_add_lt_is_or (i := 22) (by omega) _).symm
    rw [h2]
    omega
  · rw [hP, hO]; omega
  · rw [IS_ALIGNED_iff, hP]; omega

/-- C14 at a concrete input: the address `0xDEADBEEF`. -/
theorem C14_address_decomposition_witness :
    GET_UPPER_INDEX 0xDEADBEEF < 1024 ∧ GET_LOWER_INDEX 0xDEADBEEF < 1024 ∧
    GET_OFFSET 0xDEADBEEF < 4096 ∧
    (GET_UPPER_INDEX 0xDEADBEEF <<< 22) ||| (GET_LOWER_INDEX 0xDEADBEEF <<< 12)
      ||| GET_OFFSET 0xDEADBEEF = 0xDEADBEEF ∧
    GET_PAGE_ADDR 0xDEADBEEF + GET_OFFSET 0xDEADBEEF = 0xDEADBEEF ∧
    IS_ALIGNED (GET_PAGE_ADDR 0xDEADBEEF) = true :=
  C14_address_decomposition 0xDEADBEEF (by decide)

/-! ## Claims C15 and C16: one pass of the evictor's loop -/

/-- C15 (evaluation at the failing input): on the machine left by
`vmsim_init` and `vmsim_map_fault(4096)`, where `reverse_page_map[clock_hand]`
names the entry at 8196, which holds frame 4198400 resident and not
referenced, one pass of the loop of `swap_out` calls `bs_write` with the stale
value of the local `real_page_addr` (here `0xBAD`) and block 1, not with the
victim's frame 4198400; the entry at 8196 is still 4198401, resident, not the
swapped encoding of block 1; `bs_free_block` goes from 1 to 2; and `swap_out`
returns nothing. -/
theorem C15_victim_not_swapped :
    (∃ m1, swap_out_body bits124 mapped_machine 0xBAD = some (m1, 4198400) ∧
      m1.bs_log = [BsCall.write 0xBAD 1] ∧
      read32 m1 8196 = some 4198401 ∧
      mapped_machine.bs_free_block = 1 ∧ m1.bs_free_block = 2) ∧
    mapped_machine.reverse_page_map mapped_machine.clock_hand = 8196 ∧
    read32 mapped_machine 8196 = some 4198401 ∧
    IS_REFERENCED bits124 4198401 = false ∧
    ∀ fuel, swap_out bits124 fuel mapped_machine 0xBAD = none :=
  ⟨⟨_, rfl, rfl, rfl, rfl, rfl⟩, rfl, rfl, rfl, fun fuel => swap_out_none bits124 fuel _ _⟩

/-- C16 (evaluation at the failing input): with 255 data frames, the clock
hand at 0 and a referenced entry under it, one pass of the loop of `swap_out`
stores the entry back with the referenced flag cleared and leaves the clock
hand at 2, not at 1; with the clock hand at 253 the pass leaves it at 255,
which is `normal_real_pages`, outside `[0, normal_real_pages)`. -/
theorem C16_clock_hand_advances_twice :
    (referenced_machine.normal_real_pages = 255 ∧ referenced_machine.clock_hand = 0 ∧
      read32 referenced_machine 8196 = some (4198401 ||| 2) ∧
      ∃ m1, swap_out_body bits124 referenced_machine 0 = some (m1, 0) ∧
        read32 m1 8196 = some 4198401 ∧ m1.clock_hand = 2) ∧
    (late_hand_machine.normal_real_pages = 255 ∧ late_hand_machine.clock_hand = 253 ∧
      ∃ m1, swap_out_body bits124 late_hand_machine 0 = some (m1, 0) ∧
        read32 m1 8196 = some 4198401 ∧ m1.clock_hand = 255) :=
  ⟨⟨rfl, rfl, rfl, _, rfl, rfl, rfl⟩, ⟨rfl, rfl, _, rfl, rfl, rfl⟩⟩

/-! ## Claim C17: how many frames the bump path hands out -/

/-- C17 (evaluation at the failing input): with the arena size set to
`PT_AREA_SIZE + PAGESIZE + 100`, `vmsim_init` computes `normal_real_pages = 1`,
yet the second call of `allocate_real_page` also returns, which `swap_out`
never does: it takes the bump path and hands out the frame at
`PT_AREA_SIZE + PAGESIZE`, of which only 100 bytes lie inside the arena. -/
theorem C17_bump_serves_partial_frame :
    ∃ m, vmsim_init odd_env initial_globals = some m ∧
      m.normal_real_pages = 1 ∧
      ¬ (PT_AREA_SIZE + PAGESIZE + PAGESIZE ≤ m.real_size) ∧
      ∀ (U : Uninit) (fuel : Nat),
        ∃ m1, allocate_real_page_calls bits124 U fuel 2 m
          = some ([PT_AREA_SIZE, PT_AREA_SIZE + PAGESIZE], m1) :=
  ⟨_, rfl, rfl, by decide, fun _ _ => ⟨_, rfl⟩⟩

/-! ## Claims C18 and C20: what `clear_page` writes -/

theorem writeBytes_zero_byte (mem : Nat → Nat) (x : Nat) :
    writeBytes mem (List.replicate PAGESIZE 0) PAGESIZE 1 x
      = if x = PAGESIZE then 0 else mem x := by
  unfold writeBytes
  by_cases hx : x = PAGESIZE
  · subst hx
    have h : PAGESIZE ≤ PAGESIZE ∧ PAGESIZE < PAGESIZE + 1 := ⟨Nat.le_refl _, Nat.lt_succ_self _⟩
    rw [if_pos h, if_pos rfl, List.getD_eq_getElem?_getD,
      List.getElem?_getD_replicate_default_eq]
  · have h : ¬ (PAGESIZE ≤ x ∧ x < PAGESIZE + 1) := by omega
    rw [if_neg h, if_neg hx]

/-- C18 (evaluation at the failing input): after the raw write of byte 7 to
real address `PT_AREA_SIZE`, the first page of the data zone, on the freshly
initialised default arena, `clear_page(PT_AREA_SIZE)` returns and the byte at
`PT_AREA_SIZE` is still 7; and `allocate_real_page` returns the frame
`PT_AREA_SIZE` with that byte still 7. -/
theorem C18_clear_page_leaves_page :
    (∃ m1, clear_page scribbled_machine PT_AREA_SIZE = some m1 ∧ m1.mem PT_AREA_SIZE = 7) ∧
    (∀ (U : Uninit) (fuel : Nat),
      ∃ m1, allocate_real_page bits124 U fuel scribbled_machine = some (PT_AREA_SIZE, m1) ∧
        m1.mem PT_AREA_SIZE = 7) :=
  ⟨⟨_, rfl, rfl⟩, fun _ _ => ⟨_, rfl, rfl⟩⟩

/-- C20: for every machine and every argument, `clear_page` passes its
assertion exactly when the byte at real address `PAGESIZE` lies in the arena
(the 64-bit end pointer `real_base + PAGESIZE + 1` is not above `real_limit`),
and then it returns the machine with that one byte set to zero and every
other byte, and everything besides the arena, as it was. -/
theorem C20_clear_page_frame (m : Machine) (real_page_addr : Nat) :
    clear_page m real_page_addr =
      if (m.real_base + PAGESIZE + 1) % W64 ≤ m.real_limit then
        some { m with mem := fun x => if x = PAGESIZE then 0 else m.mem x }
      else none := by
  by_cases h : (m.real_base + PAGESIZE + 1) % W64 ≤ m.real_limit
  · rw [clear_page_eq m real_page_addr h, if_pos h]
    have e : writeBytes m.mem (List.replicate PAGESIZE 0) PAGESIZE 1
        = fun x => if x = PAGESIZE then 0 else m.mem x :=
      funext (writeBytes_zero_byte m.mem)
    rw [e]
  · unfold clear_page vmsim_write_real
    simp only [h, if_false]

/-! ## Claim C19: the translator does not look at the address -/

theorem mmu_translate_with_eq (fault : Nat → Machine → Nat → Option Machine) (U : Uninit)
    (fuel : Nat) (m : Machine) (sim_addr : Nat) :
    mmu_translate_with fault U (fuel + 1) m sim_addr =
      (read32 m (mmu_first_read m)).bind (fun _ =>
        (read32 m (mmu_second_read m)).bind (fun _ => some (U.phys_addr, m))) := by
  unfold mmu_translate_with mmu_first_read mmu_second_read
  simp only [ne_eq, not_true_eq_false, if_false, false_and]
  generalize read32 m ((((m.upper_pt_addr + ((m.upper_pt_addr >>> 22) &&& 0x3ff)) % W32) <<< 2)
    % W32) = r1
  generalize read32 m ((((m.upper_pt_addr + ((m.upper_pt_addr >>> 12) &&& 0x3ff)) % W32) <<< 2)
    % W32) = r2
  cases r1 <;> cases r2 <;> rfl

theorem mmu_translate_eq (B : PteBits) (U : Uninit) (fuel : Nat) (m : Machine)
    (sim_addr : Nat) :
    mmu_translate B U (fuel + 1) m sim_addr =
      (read32 m (mmu_first_read m)).bind (fun _ =>
        (read32 m (mmu_second_read m)).bind (fun _ => some (U.phys_addr, m))) := by
  unfold mmu_translate mmu_first_read mmu_second_read
  simp only [ne_eq, not_true_eq_false, if_false, false_and]
  generalize read32 m ((((m.upper_pt_addr + ((m.upper_pt_addr >>> 22) &&& 0x3ff)) % W32) <<< 2)
    % W32) = r1
  generalize read32 m ((((m.upper_pt_addr + ((m.upper_pt_addr >>> 12) &&& 0x3ff)) % W32) <<< 2)
    % W32) = r2
  cases r1 <;> cases r2 <;> rfl

/-- C19: for every machine, every handler put in the place of
`vmsim_map_fault` (even one that always aborts) and every two simulated
addresses `a` and `b`, a call of `mmu_translate` bounds-checks and reads the
two real addresses `(upper_pt_addr + ((upper_pt_addr >> 22) & 0x3ff)) << 2`
and `(upper_pt_addr + ((upper_pt_addr >> 12) & 0x3ff)) << 2`, and, when both
lie in the arena, returns the stale value of `phys_addr` with the machine
exactly as it was: the handler is not called and no byte is written.  The
runs for `a` and for `b` are the same, and `mmu_translate` itself is the case
where the handler is `vmsim_map_fault`.  The two addresses read are the 32-bit
sums of `upper_pt_addr` and an index taken from `upper_pt_addr`, times four,
again in 32 bits. -/
theorem C19_translate_address_independent (B : PteBits)
    (fault : Nat → Machine → Nat → Option Machine) (U : Uninit) (fuel : Nat) (m : Machine)
    (a b : Nat) :
    mmu_translate_with fault U (fuel + 1) m a =
      (read32 m (mmu_first_read m)).bind (fun _ =>
        (read32 m (mmu_second_read m)).bind (fun _ => some (U.phys_addr, m))) ∧
    mmu_translate_with fault U (fuel + 1) m a = mmu_translate_with fault U (fuel + 1) m b ∧
    mmu_translate B U (fuel + 1) m a = mmu_translate_with fault U (fuel + 1) m a ∧
    mmu_translate B U (fuel + 1) m a = mmu_translate B U (fuel + 1) m b ∧
    mmu_first_read m
      = ((m.upper_pt_addr + ((m.upper_pt_addr >>> 22) &&& 0x3ff)) % W32 * 4) % W32 ∧
    mmu_second_read m
      = ((m.upper_pt_addr + ((m.upper_pt_addr >>> 12) &&& 0x3ff)) % W32 * 4) % W32 := by
  refine ⟨mmu_translate_with_eq fault U fuel m a, ?_, ?_, ?_, ?_, ?_⟩
  · rw [mmu_translate_with_eq, mmu_translate_with_eq]
  · rw [mmu_translate_eq, mmu_translate_with_eq]
  · rw [mmu_translate_eq, mmu_translate_eq]
  · unfold mmu_first_read
    rw [Nat.shiftLeft_eq]
  · unfold mmu_second_read
    rw [Nat.shiftLeft_eq]


end Vmsim
